import Mathlib

/- Verification of the second-brain voice bot intake engine.

   Shallow embedding of src/app/handlers/voice.py, src/app/services/intent_service.py,
   src/app/services/router_service.py and src/app/services/delete_service.py.

   Python strings are modelled as lists of characters (Str); Python dicts used
   with insertion-order iteration are modelled as association lists with
   overwrite-in-place update; external effects (sheet reads, LLM calls) are
   modelled as explicit parameters, with fallible reads as Except values.
   Dates are modelled by their proleptic-Gregorian day ordinal (an Int), which
   preserves the ordering and day arithmetic of Python date objects. -/

abbrev Str := List Char

instance {ε α : Type} [DecidableEq ε] [DecidableEq α] : DecidableEq (Except ε α) :=
  fun a b =>
    match a, b with
    | .error e1, .error e2 =>
      if h : e1 = e2 then isTrue (by rw [h]) else isFalse (fun hc => by cases hc; exact h rfl)
    | .ok v1, .ok v2 =>
      if h : v1 = v2 then isTrue (by rw [h]) else isFalse (fun hc => by cases hc; exact h rfl)
    | .error _, .ok _ => isFalse (fun hc => by cases hc)
    | .ok _, .error _ => isFalse (fun hc => by cases hc)

namespace SB

/- ## Python string primitives -/

/- Python str.lower restricted to the alphabets the bot uses:
   ASCII letters and Russian Cyrillic (including Ё). -/
def lowerChar (c : Char) : Char :=
  if 'A' ≤ c ∧ c ≤ 'Z' then Char.ofNat (c.toNat + 32)
  else if 'А' ≤ c ∧ c ≤ 'Я' then Char.ofNat (c.toNat + 32)
  else if c = 'Ё' then 'ё'
  else c

def lower (s : Str) : Str := s.map lowerChar

/- Python str whitespace characters. -/
def isSpace (c : Char) : Bool :=
  c = ' ' ∨ c = '\t' ∨ c = '\n' ∨ c = '\r' ∨ c = '\x0b' ∨ c = '\x0c'

def lstripBy (p : Char → Bool) (s : Str) : Str := s.dropWhile p

def rstripBy (p : Char → Bool) (s : Str) : Str := (s.reverse.dropWhile p).reverse

def stripBy (p : Char → Bool) (s : Str) : Str := rstripBy p (lstripBy p s)

/- Python str.strip() with no arguments. -/
def strip (s : Str) : Str := stripBy isSpace s

def lstrip (s : Str) : Str := lstripBy isSpace s

def rstrip (s : Str) : Str := rstripBy isSpace s

def isPunctSp (c : Char) : Bool := c = ' ' ∨ c = ',' ∨ c = '.' ∨ c = '-'

/- Python str.strip(" ,.-"). -/
def stripPunct (s : Str) : Str := stripBy isPunctSp s

/- Python str.lstrip(" ,.-"). -/
def lstripPunct (s : Str) : Str := lstripBy isPunctSp s

/- Python str.rstrip(" ,.-"). -/
def rstripPunct (s : Str) : Str := rstripBy isPunctSp s

/- Python substring membership: pat in hay. -/
def containsSub (hay pat : Str) : Bool :=
  match hay with
  | [] => pat.isEmpty
  | _ :: t => pat.isPrefixOf hay || containsSub t pat

def containsAny (text : Str) (kws : List Str) : Bool := kws.any (fun k => containsSub text k)

def memStr (x : Str) (l : List Str) : Bool := l.any (fun y => y = x)

/- Python str.split() with no arguments: split on whitespace runs, no empties. -/
def wordsAux : Str → Str → List Str
  | cur, [] => if cur = [] then [] else [cur.reverse]
  | cur, c :: rest =>
    if isSpace c then
      if cur = [] then wordsAux [] rest else cur.reverse :: wordsAux [] rest
    else wordsAux (c :: cur) rest

def words (s : Str) : List Str := wordsAux [] s

/- Python " ".join(pieces). -/
def joinSpace : List Str → Str
  | [] => []
  | [w] => w
  | w :: ws => w ++ ' ' :: joinSpace ws

/- Python str.split(sep) for a nonempty separator: keeps empty pieces.  Each
   match consumes at least one character, so fuel length+1 always suffices. -/
def splitSubFuel (sep : Str) : Nat → Str → Str → List Str
  | 0, cur, s => [cur.reverse ++ s]
  | fuel + 1, cur, s =>
    match s with
    | [] => [cur.reverse]
    | c :: rest =>
      if sep ≠ [] ∧ sep.isPrefixOf (c :: rest) then
        cur.reverse :: splitSubFuel sep fuel [] ((c :: rest).drop sep.length)
      else splitSubFuel sep fuel (c :: cur) rest

def splitAll (sep : Str) (s : Str) : List Str := splitSubFuel sep (s.length + 1) [] s

/- Python str.split(sep, 1): the pieces before and after the first occurrence. -/
def splitOnceAux (sep : Str) : Str → Str → Option (Str × Str)
  | _, [] => none
  | acc, c :: rest =>
    if sep.isPrefixOf (c :: rest) then some (acc.reverse, (c :: rest).drop sep.length)
    else splitOnceAux sep (c :: acc) rest

def splitOnce (sep : Str) (s : Str) : Option (Str × Str) := splitOnceAux sep [] s

/- Association-list update with Python dict semantics: overwrite in place
   (keeping the key's position), append when the key is new. -/
def updateAssoc {κ ν : Type} [DecidableEq κ] : List (κ × ν) → κ → ν → List (κ × ν)
  | [], k, v => [(k, v)]
  | p :: m, k, v => if p.1 = k then (k, v) :: m else p :: updateAssoc m k v

def lookupAssoc {κ ν : Type} [DecidableEq κ] (m : List (κ × ν)) (k : κ) : Option ν :=
  (m.find? (fun p => p.1 = k)).map (fun p => p.2)

/- ## Dates (proleptic Gregorian, day ordinals relative to 1970-01-01) -/

def isLeapYear (y : Int) : Bool := y % 4 = 0 ∧ (y % 100 ≠ 0 ∨ y % 400 = 0)

def daysInMonth (y m : Int) : Int :=
  if m = 2 then (if isLeapYear y then 29 else 28)
  else if m = 4 ∨ m = 6 ∨ m = 9 ∨ m = 11 then 30 else 31

def toOrdinal (y m d : Int) : Int :=
  let yAdj := if m ≤ 2 then y - 1 else y
  let era := (if 0 ≤ yAdj then yAdj else yAdj - 399) / 400
  let yoe := yAdj - era * 400
  let mp := (m + 9) % 12
  let doy := (153 * mp + 2) / 5 + d - 1
  let doe := yoe * 365 + yoe / 4 - yoe / 100 + doy
  era * 146097 + doe - 719468

def fromOrdinal (z : Int) : Int × Int × Int :=
  let z2 := z + 719468
  let era := (if 0 ≤ z2 then z2 else z2 - 146096) / 146097
  let doe := z2 - era * 146097
  let yoe := (doe - doe / 1460 + doe / 36524 - doe / 146096) / 365
  let y := yoe + era * 400
  let doy := doe - (365 * yoe + yoe / 4 - yoe / 100)
  let mp := (5 * doy + 2) / 153
  let d := doy - (153 * mp + 2) / 5 + 1
  let m := mp + (if mp < 10 then 3 else (-9))
  (if m ≤ 2 then y + 1 else y, m, d)

/- Python date.weekday(): Monday is 0.  1970-01-01 (ordinal 0) was a Thursday. -/
def weekdayOf (z : Int) : Int := (z + 3) % 7

def digitsToNat (s : Str) : Nat := s.foldl (fun a c => a * 10 + (c.toNat - 48)) 0

def padNum (width : Nat) (n : Int) : Str :=
  let ds := Nat.toDigits 10 n.toNat
  List.replicate (width - ds.length) '0' ++ ds

/- Python date.strftime("%d.%m.%Y"). -/
def formatDate (z : Int) : Str :=
  match fromOrdinal z with
  | (y, m, d) => padNum 2 d ++ '.' :: (padNum 2 m ++ '.' :: padNum 4 y)

/- Python datetime.strptime(v, "%d.%m.%Y").date(): day and month are 1-2
   digits, year exactly 4 digits, and the day must exist in the month. -/
def parseDMY (v : Str) : Option Int :=
  match splitAll (['.']) v with
  | [ds, ms, ys] =>
    if ds.all Char.isDigit ∧ 1 ≤ ds.length ∧ ds.length ≤ 2 ∧
       ms.all Char.isDigit ∧ 1 ≤ ms.length ∧ ms.length ≤ 2 ∧
       ys.all Char.isDigit ∧ ys.length = 4 then
      let d : Int := (digitsToNat ds : Nat)
      let m : Int := (digitsToNat ms : Nat)
      let y : Int := (digitsToNat ys : Nat)
      if 1 ≤ d ∧ d ≤ 31 ∧ 1 ≤ m ∧ m ≤ 12 ∧ 1 ≤ y ∧ d ≤ daysInMonth y m then
        some (toOrdinal y m d)
      else none
    else none
  | _ => none

/- Python datetime.strptime(v, "%Y-%m-%d").date(). -/
def parseISO (v : Str) : Option Int :=
  match splitAll (['-']) v with
  | [ys, ms, ds] =>
    if ys.all Char.isDigit ∧ ys.length = 4 ∧
       ms.all Char.isDigit ∧ 1 ≤ ms.length ∧ ms.length ≤ 2 ∧
       ds.all Char.isDigit ∧ 1 ≤ ds.length ∧ ds.length ≤ 2 then
      let y : Int := (digitsToNat ys : Nat)
      let m : Int := (digitsToNat ms : Nat)
      let d : Int := (digitsToNat ds : Nat)
      if 1 ≤ d ∧ d ≤ 31 ∧ 1 ≤ m ∧ m ≤ 12 ∧ 1 ≤ y ∧ d ≤ daysInMonth y m then
        some (toOrdinal y m d)
      else none
    else none
  | _ => none

def tryDateFormats (v : Str) : Option Int :=
  match parseDMY v with
  | some z => some z
  | none => parseISO v

/- voice.py _parse_date_value. -/
def parseDateValue (v : Str) : Option Int :=
  let v := strip v
  if v = [] then none else tryDateFormats v

/- ## voice.py header and row helpers -/

/- Python header.replace("*", ""). -/
def removeStars (s : Str) : Str := s.filter (fun c => c ≠ '*')

/- voice.py _display_header. -/
def displayHeader (h : Str) : Str := strip (removeStars h)

/- voice.py _clean_header (same body as _display_header in the source). -/
def cleanHeader (h : Str) : Str := strip (removeStars h)

def endsWithStar (s : Str) : Bool := s.getLast? = some '*'

/- voice.py _get_missing_required: indices and display names of mandatory
   headers whose cell is empty after stripping. -/
def missingRequiredFrom (row : List Str) : Nat → List Str → List (Nat × Str)
  | _, [] => []
  | i, h :: hs =>
    if endsWithStar (strip h) ∧ strip (row.getD i []) = [] then
      (i, displayHeader h) :: missingRequiredFrom row (i + 1) hs
    else missingRequiredFrom row (i + 1) hs

def getMissingRequired (headers row : List Str) : List (Nat × Str) :=
  missingRequiredFrom row 0 headers

/- voice.py _is_priority_header. -/
def isPriorityHeader (h : Str) : Bool := containsSub (lower (strip h)) (("приоритет").data)

/- voice.py _normalize_text. -/
def normalizeText (v : Str) : Str := joinSpace (words (lower v))

/- voice.py _find_header_index. -/
def findHeaderIndexFrom (names : List Str) : Nat → List Str → Option Nat
  | _, [] => none
  | i, h :: hs =>
    if memStr (strip (lower (displayHeader h))) names then some i
    else findHeaderIndexFrom names (i + 1) hs

def findHeaderIndex (headers : List Str) (names : List Str) : Option Nat :=
  findHeaderIndexFrom names 0 headers

/- voice.py _get_value_by_headers. -/
def getValueByHeaders (headers row : List Str) (names : List Str) : Str :=
  match findHeaderIndex headers names with
  | none => []
  | some i => if i < row.length then strip (row.getD i []) else []

def summaryNames : List Str := [("суть").data, ("описание").data, ("summary").data]

def rawNames : List Str :=
  [("сырой текст").data, ("raw text").data, ("original text").data, ("исходный текст").data]

def dupDateNames : List Str :=
  [("дата").data, ("дата добавления").data, ("дата выполнения").data, ("date").data]

def previewSummaryNames : List Str :=
  [("суть").data, ("описание").data, ("summary").data, ("на что потрачено").data]

/- voice.py _get_summary_value. -/
def getSummaryValue (headers row : List Str) : Str :=
  match findHeaderIndex headers summaryNames with
  | none => []
  | some i => if i < row.length then strip (row.getD i []) else []

/- ## voice.py _make_summary -/

def summaryPrefList : List Str :=
  [("слушай").data, ("а слушай").data, ("мне надо").data, ("мне нужно").data,
   ("нужно").data, ("я хочу").data, ("хочу").data, ("можешь").data,
   ("можешь пожалуйста").data, ("пожалуйста").data, ("надо").data]

def summarySufList : List Str :=
  [("можешь поставить задачку").data, ("можешь поставить задачу").data,
   ("поставь задачку").data, ("поставь задачу").data, ("добавь в задачи").data,
   ("добавь задачу").data, ("запомни это").data, ("пожалуйста").data]

/- The while-changed prefix-stripping loop of _make_summary.  Every listed
   prefix is nonempty, so each pass shortens the string; fuel length+1 is
   enough for the loop to run to quiescence. -/
def makeSummaryLoop : Nat → Str → Str
  | 0, s => s
  | fuel + 1, s =>
    let lowered := lstrip (lower s)
    match summaryPrefList.find? (fun p => p.isPrefixOf lowered) with
    | some p => makeSummaryLoop fuel (lstripPunct (s.drop p.length))
    | none => s

/- voice.py _make_summary. -/
def makeSummary (text : Str) : Str :=
  let s0 := strip text
  if s0 = [] then s0
  else
    let s1 := makeSummaryLoop (s0.length + 1) s0
    let s2 :=
      match summarySufList.find? (fun p => p.isSuffixOf (lower s1)) with
      | some p => rstripPunct (s1.take (s1.length - p.length))
      | none => s1
    let s3 := joinSpace (words s2)
    let s4 := if 160 < s3.length then rstrip (s3.take 157) ++ ("...").data else s3
    if s4 = [] then text else s4

/- ## voice.py duplicate detection -/

/- voice.py _same_or_empty. -/
def sameOrEmpty (l r : Str) : Bool :=
  if l = [] ∨ r = [] then true else normalizeText l = normalizeText r

/- voice.py _is_duplicate. -/
def isDuplicate (sNew rNew dNew sOld rOld dOld : Str) : Bool :=
  if sNew ≠ [] ∧ sOld ≠ [] ∧ normalizeText sNew = normalizeText sOld then
    sameOrEmpty dNew dOld
  else if rNew ≠ [] ∧ rOld ≠ [] ∧ normalizeText rNew = normalizeText rOld then
    sameOrEmpty dNew dOld
  else false

/- Spec-side duplicate predicate, following the wording of spec §4.5: two rows
   are duplicates exactly when (the summary columns match after
   case/whitespace normalization AND the dates are equal-or-either-empty) OR
   (the raw-text columns match under the same normalization AND the dates are
   equal-or-either-empty); a column pair "matches" when both values are
   nonempty and equal after normalization.  Compared against the code's
   isDuplicate in the C7 theorem. -/
def specIsDuplicate (sNew rNew dNew sOld rOld dOld : Str) : Bool :=
  decide (((sNew ≠ [] ∧ sOld ≠ [] ∧ normalizeText sNew = normalizeText sOld) ∧
           (dNew = [] ∨ dOld = [] ∨ normalizeText dNew = normalizeText dOld)) ∨
          ((rNew ≠ [] ∧ rOld ≠ [] ∧ normalizeText rNew = normalizeText rOld) ∧
           (dNew = [] ∨ dOld = [] ∨ normalizeText dNew = normalizeText dOld)))

/- voice.py _shorten. -/
def shorten (limit : Nat) (v : Str) : Str :=
  let v := strip v
  if v.length ≤ limit then v else rstrip (v.take (limit - 3)) ++ ("...").data

/- voice.py _format_duplicate_preview. -/
def formatDuplicatePreview (headers row : List Str) : Str :=
  let dateV := getValueByHeaders headers row dupDateNames
  let sumV := getValueByHeaders headers row previewSummaryNames
  let rawV := getValueByHeaders headers row rawNames
  let l1 : List Str := if dateV ≠ [] then [("📅 Дата: ").data ++ shorten 80 dateV] else []
  let l2 : List Str := if sumV ≠ [] then [("📝 Суть: ").data ++ shorten 80 sumV] else []
  let l3 : List Str :=
    if rawV ≠ [] ∧ normalizeText rawV ≠ normalizeText sumV then
      [("🗣️ Сырой текст: ").data ++ shorten 120 rawV]
    else []
  let lns := l1 ++ l2 ++ l3
  if lns = [] then ("Похожая запись найдена.").data else List.intercalate (['\n']) lns

/- Python l[-n:] for n possibly 0 (l[-0:] is the whole list). -/
def pySliceLast {α : Type} (n : Nat) (l : List α) : List α :=
  if n = 0 then l else l.drop (l.length - n)

/- voice.py _find_duplicate.  The sheet read may raise (modelled as an Except
   argument); on failure the function logs and returns None. -/
def findDuplicate (fetch : Except Unit (List (List Str))) (headers row : List Str)
    (limit : Nat) : Option Str :=
  match fetch with
  | .error _ => none
  | .ok rows =>
    if rows.length < 2 then none
    else
      let headerRow := rows.headD []
      let sNew := getValueByHeaders headers row summaryNames
      let rNew := getValueByHeaders headers row rawNames
      let dNew := getValueByHeaders headers row dupDateNames
      let recent := pySliceLast limit (rows.drop 1)
      match recent.reverse.find? (fun old =>
          isDuplicate sNew rNew dNew
            (getValueByHeaders headerRow old summaryNames)
            (getValueByHeaders headerRow old rawNames)
            (getValueByHeaders headerRow old dupDateNames)) with
      | some old => some (formatDuplicatePreview headerRow old)
      | none => none

/- ## voice.py transcript date extraction -/

/- Match of the regex \d{2}\.\d{2}\.\d{4} at the head of the string. -/
def ddmmyyyyAt (s : Str) : Option Str :=
  match s with
  | a :: b :: c :: d :: e :: f :: g :: h :: i :: j :: _ =>
    if a.isDigit ∧ b.isDigit ∧ c = '.' ∧ d.isDigit ∧ e.isDigit ∧ f = '.' ∧
       g.isDigit ∧ h.isDigit ∧ i.isDigit ∧ j.isDigit then
      some [a, b, c, d, e, f, g, h, i, j]
    else none
  | _ => none

/- Match of the regex \d{4}-\d{2}-\d{2} at the head of the string. -/
def isoAt (s : Str) : Option Str :=
  match s with
  | a :: b :: c :: d :: e :: f :: g :: h :: i :: j :: _ =>
    if a.isDigit ∧ b.isDigit ∧ c.isDigit ∧ d.isDigit ∧ e = '-' ∧ f.isDigit ∧
       g.isDigit ∧ h = '-' ∧ i.isDigit ∧ j.isDigit then
      some [a, b, c, d, e, f, g, h, i, j]
    else none
  | _ => none

/- re.search: first position where the head matcher succeeds. -/
def scanFor (f : Str → Option Str) : Str → Option Str
  | [] => f []
  | s@(_ :: rest) =>
    match f s with
    | some r => some r
    | none => scanFor f rest

/- voice.py _extract_explicit_date: when the dd.mm.yyyy regex matches, its
   parse result is returned directly (even when invalid), without trying ISO. -/
def extractExplicitDate (text : Str) : Option Int :=
  match scanFor ddmmyyyyAt text with
  | some m => parseDateValue m
  | none =>
    match scanFor isoAt text with
    | some m => parseDateValue m
    | none => none

/- voice.py _find_weekday (dict iteration in insertion order). -/
def weekdayKeys : List (Str × Int) :=
  [(("понед").data, 0), (("втор").data, 1), (("сред").data, 2), (("четвер").data, 3),
   (("четверг").data, 3), (("пятниц").data, 4), (("суббот").data, 5), (("воскрес").data, 6)]

def findWeekday (text : Str) : Option Int :=
  (weekdayKeys.find? (fun kv => containsSub text kv.1)).map (fun kv => kv.2)

/- voice.py _extract_relative_date. -/
def extractRelativeDate (text : Str) (today : Int) : Option Int :=
  let lowered := lower text
  if containsSub lowered (("послезавтра").data) then some (today + 2)
  else if containsSub lowered (("завтра").data) then some (today + 1)
  else if containsSub lowered (("сегодня").data) then some today
  else
    match findWeekday lowered with
    | none => none
    | some wd =>
      if containsSub lowered (("следующ").data) then
        let dtm := 7 - weekdayOf today
        let dtm := if dtm = 0 then 7 else dtm
        some (today + dtm + wd)
      else some (today + (wd - weekdayOf today) % 7)

/- ## voice.py row post-processing -/

/- One pass of the per-header overwrite loops in _apply_date_fields: cell i is
   replaced by v when the header at i satisfies p (the loops write each index
   at most once, and only indices present in both lists). -/
def applyHeaderDates (p : Str → Bool) (v : Str) : List Str → List Str → List Str
  | _, [] => []
  | [], row => row
  | h :: hs, c :: cs => (if p h then v else c) :: applyHeaderDates p v hs cs

def headerKeyIs (name : Str) (h : Str) : Bool := strip (lower (displayHeader h)) = name

def dueDateNames : List Str :=
  [("дата выполнения").data, ("дата").data, ("date").data, ("due date").data]

/- voice.py _apply_date_fields. -/
def applyDateFields (headers row : List Str) (transcript : Str) (today : Int) : List Str :=
  let dateExplicit := extractExplicitDate transcript
  let dateRelative := extractRelativeDate transcript today
  let targetDate := match dateExplicit with | some z => some z | none => dateRelative
  let todayStr := formatDate today
  let row1 := applyHeaderDates (headerKeyIs (("дата добавления").data)) todayStr headers row
  match targetDate with
  | some td =>
    applyHeaderDates (fun h => memStr (strip (lower (displayHeader h))) dueDateNames)
      (formatDate td) headers row1
  | none => row1

/- voice.py _apply_text_fields. -/
def applyTextFields (headers row : List Str) (transcript : Str) : List Str :=
  let rawIdx := findHeaderIndex headers rawNames
  let sumIdx := findHeaderIndex headers summaryNames
  let row1 :=
    match rawIdx with
    | some i => if i < row.length then row.set i transcript else row
    | none => row
  match sumIdx with
  | none => row1
  | some j =>
    if j < row1.length then
      let sumV := strip (row1.getD j [])
      let rawV := strip transcript
      let rawColV :=
        match rawIdx with
        | some i => if i < row1.length then strip (row1.getD i []) else []
        | none => []
      if sumV = [] ∨ normalizeText sumV = normalizeText rawV ∨
         normalizeText sumV = normalizeText rawColV then
        row1.set j (makeSummary transcript)
      else row1
    else row1

/- ## voice.py _parse_key_values -/

def parseKeyValuesLines (text : Str) : List Str :=
  let parts := ((splitAll ([';']) text).map strip).filter (fun p => p ≠ [])
  parts.flatMap (fun p => ((splitAll (['\n']) p).map strip).filter (fun l => l ≠ []))

def parseKvLine (line : Str) : Option (Str × Str) :=
  if containsSub line ([':']) then splitOnce ([':']) line
  else if containsSub line (['=']) then splitOnce (['=']) line
  else if containsSub line ((" - ").data) then splitOnce ((" - ").data) line
  else none

/- voice.py _parse_key_values: a dict from row index to stripped value. -/
def parseKeyValues (text : Str) (headerMap : List (Str × Nat)) : List (Nat × Str) :=
  (parseKeyValuesLines text).foldl (fun acc line =>
    match parseKvLine line with
    | none => acc
    | some (k, v) =>
      let kn := lower (displayHeader k)
      match lookupAssoc headerMap kn with
      | none => acc
      | some idx => updateAssoc acc idx (strip v)) []

/- The header map for required fields: {name.lower(): idx}. -/
def buildRequiredMap (req : List (Nat × Str)) : List (Str × Nat) :=
  req.foldl (fun m p => updateAssoc m (lower p.2) p.1) []

/- The update application loop in handle_required_fields. -/
def applyUpdates (row : List Str) (ups : List (Nat × Str)) : List Str :=
  ups.foldl (fun r p => if p.1 < r.length then r.set p.1 p.2 else r) row

/- ## intent_service.py -/

def deleteKeywords : List Str :=
  [("удали").data, ("удалить").data, ("убери").data, ("стереть").data,
   ("remove").data, ("delete").data]

def questionWords : List Str :=
  [("вопрос").data, ("спроси").data, ("узнай").data, ("расскажи").data,
   ("объясни").data, ("подскажи").data, ("помоги").data, ("покажи").data,
   ("найди").data, ("напомни").data, ("сколько").data, ("почему").data,
   ("зачем").data, ("где").data, ("когда").data]

def leadQuestionWords : List Str :=
  [("что").data, ("как").data, ("когда").data, ("где").data, ("почему").data,
   ("зачем").data, ("сколько").data, ("какие").data, ("какая").data,
   ("какой").data, ("каких").data, ("какими").data, ("есть ли").data,
   ("можно ли").data, ("нужно ли").data]

/- Python \w for the alphabets in use: ASCII word characters plus Cyrillic. -/
def isWordChar (c : Char) : Bool :=
  c.isAlpha ∨ c.isDigit ∨ c = '_' ∨ ('а' ≤ c ∧ c ≤ 'я') ∨ ('А' ≤ c ∧ c ≤ 'Я') ∨
  c = 'ё' ∨ c = 'Ё'

/- re.match(r"^\s*(что|...)\b", lowered): skip leading whitespace, then one of
   the lead words followed by a word boundary. -/
def leadQuestionMatch (lowered : Str) : Bool :=
  let afterWs := lstrip lowered
  leadQuestionWords.any (fun w =>
    w.isPrefixOf afterWs &&
    (match afterWs.drop w.length with
     | [] => true
     | c :: _ => ! isWordChar c))

/- intent_service.py _strong_question_signal. -/
def strongQuestionSignal (text : Str) : Bool :=
  let lowered := lower text
  if containsSub lowered (['?']) then true
  else if containsAny lowered questionWords then true
  else leadQuestionMatch lowered

/- intent_service.py _heuristic_intent. -/
def heuristicIntent (text : Str) : Option (Str × Str) :=
  let lowered := lower text
  if containsAny lowered deleteKeywords then some ((("delete").data, text))
  else if strongQuestionSignal lowered then some ((("ask").data, text))
  else none

/- The JSON object returned by the intent LLM call: optional action and query. -/
structure IntentJson where
  action : Option Str
  query : Option Str
deriving DecidableEq

/- IntentService.detect.  The LLM call is awaited with no surrounding
   try/except, so a failing call propagates as the error branch. -/
def detectIntent (text : Str) (llm : Except Unit IntentJson) : Except Unit (Str × Str) :=
  match heuristicIntent text with
  | some r => .ok r
  | none =>
    match llm with
    | .error e => .error e
    | .ok data =>
      let action := lower (strip (data.action.getD (("add").data)))
      let query := strip (data.query.getD [])
      let action :=
        if ¬ (action = ("add").data ∨ action = ("delete").data ∨ action = ("ask").data) then
          ("add").data
        else action
      if action = ("ask").data ∧ ¬ strongQuestionSignal text then .ok ((("add").data, []))
      else .ok ((action, query))

/- ## router_service.py RouterService.extract_row -/

/- RouterService._normalize. -/
def rsNormalize (v : Str) : Str := lower (strip v)

/- RouterService.extract_row, given the JSON object from the LLM call as an
   ordered key/value list (values may be JSON null). -/
def extractRow (data : List (Str × Option Str)) (headers : List Str) (todayStr : Str) :
    List Str :=
  let normalizedHeaders : List (Str × Str) :=
    headers.foldl (fun m h => updateAssoc m (rsNormalize h) h) []
  let nd0 : List (Str × Str) :=
    data.foldl (fun m kv =>
      match lookupAssoc normalizedHeaders (rsNormalize kv.1) with
      | some h => updateAssoc m h (match kv.2 with | none => [] | some v => v)
      | none => m) []
  let nd1 :=
    headers.foldl (fun m h => if (lookupAssoc m h).isSome then m else m ++ [(h, [])]) nd0
  let nd2 :=
    headers.foldl (fun m h =>
      if rsNormalize h = ("дата").data ∧ strip ((lookupAssoc m h).getD []) = [] then
        updateAssoc m h todayStr
      else m) nd1
  headers.map (fun h => (lookupAssoc nd2 h).getD [])

/- ## voice.py multi-item splitter -/

def headIsSpace : Str → Bool
  | [] => false
  | c :: _ => isSpace c

/- re.split(r"[.!?]\s+|\n", text): a terminator followed by at least one
   whitespace character (both removed, whitespace taken greedily), or a bare
   newline.  Each step consumes at least one character, so fuel length+1
   always suffices. -/
def sentenceSplitFuel : Nat → Str → Str → List Str
  | 0, cur, s => [cur.reverse ++ s]
  | fuel + 1, cur, s =>
    match s with
    | [] => [cur.reverse]
    | c :: rest =>
      if (c = '.' ∨ c = '!' ∨ c = '?') ∧ headIsSpace rest then
        cur.reverse :: sentenceSplitFuel fuel [] (rest.dropWhile isSpace)
      else if c = '\n' then
        cur.reverse :: sentenceSplitFuel fuel [] rest
      else sentenceSplitFuel fuel (c :: cur) rest

def sentenceSplit (s : Str) : List Str := sentenceSplitFuel (s.length + 1) [] s

/- voice.py _split_sentences. -/
def splitSentences (text : Str) : List Str :=
  ((sentenceSplit text).map strip).filter (fun p => p ≠ [])

/- voice.py _extract_sentence: first raw regex part containing a keyword. -/
def extractSentenceFrom (keywords : List Str) (text : Str) : List Str → Str
  | [] => strip text
  | p :: ps =>
    if keywords.any (fun kw => containsSub (lower p) kw) then strip p
    else extractSentenceFrom keywords text ps

def extractSentence (text : Str) (keywords : List Str) : Str :=
  extractSentenceFrom keywords text (sentenceSplit text)

/- The discourse-connector alternation of _split_clauses, in source order. -/
def clauseMarkers : List Str :=
  [("также").data, ("также я").data, ("так же").data, ("дополнительно").data,
   ("кроме того").data, ("а еще").data, ("и еще").data, ("и у меня").data,
   ("и я").data, ("и также").data, ("плюс").data]

/- Case-insensitive match of a \b-delimited marker at the head of s, where
   prevWord says whether the preceding character was a word character. -/
def markerAt (prevWord : Bool) (s : Str) (m : Str) : Bool :=
  !prevWord && m.isPrefixOf (lower s) &&
  (match s.drop m.length with
   | [] => true
   | c :: _ => ! isWordChar c)

/- re.split over the marker alternation (all markers are nonempty, so each
   step consumes at least one character and fuel length+1 always suffices). -/
def clauseSplitFuel : Nat → Bool → Str → Str → List Str
  | 0, _, cur, s => [cur.reverse ++ s]
  | fuel + 1, prevWord, cur, s =>
    match s with
    | [] => [cur.reverse]
    | c :: rest =>
      match clauseMarkers.find? (markerAt prevWord (c :: rest)) with
      | some m => cur.reverse :: clauseSplitFuel fuel true [] ((c :: rest).drop (max 1 m.length))
      | none => clauseSplitFuel fuel (isWordChar c) (c :: cur) rest

def clauseSplit (s : Str) : List Str := clauseSplitFuel (s.length + 1) false [] s

/- voice.py _split_clauses. -/
def splitClauses (text : Str) : List Str :=
  ((clauseSplit text).filter (fun p => strip p ≠ [])).map stripPunct

/- voice.py keyword families for _explicit_category_signals. -/
def taskSignalKws : List Str :=
  [("задач").data, ("задача").data, ("созвон").data, ("позвон").data,
   ("нужно").data, ("надо").data]

def ideaSignalKws : List Str :=
  [("иде").data, ("идея").data, ("мечта").data, ("план").data, ("создать").data]

def expenseSignalKws : List Str :=
  [("потрат").data, ("заплатил").data, ("купил").data, ("расход").data,
   ("руб").data, ("доллар").data, ("магазин").data]

structure CatSignals where
  task : Bool
  idea : Bool
  expense : Bool
deriving DecidableEq

/- voice.py _explicit_category_signals. -/
def explicitCategorySignals (text : Str) : CatSignals :=
  let lowered := lower text
  { task := containsAny lowered taskSignalKws
    idea := containsAny lowered ideaSignalKws
    expense := containsAny lowered expenseSignalKws }

def signalCount (s : CatSignals) : Nat :=
  (if s.task then 1 else 0) + (if s.idea then 1 else 0) + (if s.expense then 1 else 0)

/- Head test for the и-branch of the conjunction splitter: the character и
   (case-insensitively) followed by at least one whitespace character. -/
def andMatchAfterWs : Str → Bool
  | d :: r2 => lowerChar d = 'и' && headIsSpace r2
  | [] => false

def andRemainder : Str → Str
  | _ :: r2 => r2.dropWhile isSpace
  | [] => []

/- re.split(r"\s+и\s+", text, IGNORECASE): whitespace run, the letter и,
   whitespace run.  Every match consumes at least three characters, so fuel
   length+1 always suffices. -/
def andSplitFuel : Nat → Str → Str → List Str
  | 0, cur, s => [cur.reverse ++ s]
  | fuel + 1, cur, s =>
    match s with
    | [] => [cur.reverse]
    | c :: rest =>
      if isSpace c ∧ andMatchAfterWs (rest.dropWhile isSpace) then
        cur.reverse :: andSplitFuel fuel [] (andRemainder (rest.dropWhile isSpace))
      else andSplitFuel fuel (c :: cur) rest

def andSplit (s : Str) : List Str := andSplitFuel (s.length + 1) [] s

/- voice.py _split_by_and_if_multi. -/
def splitByAndIfMulti (text : Str) : List Str :=
  if signalCount (explicitCategorySignals text) < 2 then [text]
  else ((andSplit text).filter (fun p => strip p ≠ [])).map stripPunct

/- Python list.sort(key=score, reverse=True): a stable sort, descending on
   the numeric key.  A stable sort is uniquely determined by the key order
   plus stability, so a stable insertion sort matches CPython's sort. -/
def insertScoredDesc {α : Type} (x : Nat × α) : List (Nat × α) → List (Nat × α)
  | [] => [x]
  | y :: ys => if y.1 ≤ x.1 then x :: y :: ys else y :: insertScoredDesc x ys

def sortScoredDesc {α : Type} (l : List (Nat × α)) : List (Nat × α) :=
  l.foldr insertScoredDesc []

/- voice.py keyword families for _classify_clause. -/
def classifyTaskKws : List Str :=
  [("задач").data, ("задача").data, ("нужно").data, ("надо").data,
   ("созвон").data, ("позвон").data, ("сделать").data, ("видео").data]

def classifyIdeaKws : List Str :=
  [("иде").data, ("идея").data, ("план").data, ("создать").data,
   ("курс").data, ("клуб").data, ("мечта").data]

def classifyExpenseKws : List Str :=
  [("потрат").data, ("заплатил").data, ("купил").data, ("расход").data,
   ("руб").data, ("доллар").data, ("магазин").data]

/- voice.py _keyword_score. -/
def keywordScore (text : Str) (kws : List Str) : Nat :=
  (kws.filter (fun k => containsSub text k)).length

/- voice.py _classify_clause: stable descending sort on score, ties keep
   insertion order (task, idea, expense), empty result when the best score
   is zero. -/
def classifyClause (text : Str) (taskCat ideaCat expenseCat : Option Str) : Str :=
  let lowered := lower text
  let scores : List (Nat × Str) :=
    (match taskCat with | some c => [(keywordScore lowered classifyTaskKws, c)] | none => []) ++
    (match ideaCat with | some c => [(keywordScore lowered classifyIdeaKws, c)] | none => []) ++
    (match expenseCat with | some c => [(keywordScore lowered classifyExpenseKws, c)] | none => [])
  if scores = [] then []
  else
    match sortScoredDesc scores with
    | [] => []
    | top :: _ => if top.1 = 0 then [] else top.2

/- voice.py _split_task_part. -/
def splitTaskPart (text : Str) : List Str :=
  let text :=
    match splitOnce ([':']) text with
    | some (_, rest) => strip rest
    | none => text
  let parts :=
    ((splitAll ((" и ").data) text).filter (fun p => strip p ≠ [])).map stripPunct
  if parts.length ≤ 1 then [strip text] else parts

/- voice.py category-name keyword families for _find_category_by_keywords. -/
def taskCatKws : List Str := [("задач").data, ("task").data, ("todo").data, ("to-do").data]

def ideaCatKws : List Str := [("иде").data, ("idea").data]

def expenseCatKws : List Str :=
  [("трат").data, ("расход").data, ("expense").data, ("spend").data]

/- voice.py _find_category_by_keywords (settings dict in insertion order). -/
def findCategoryByKeywords (settings : List (Str × Str)) (kws : List Str) : Option Str :=
  (settings.find? (fun p => kws.any (fun k => containsSub (lower (strip p.1)) k))).map
    (fun p => p.1)

structure MultiItem where
  category : Str
  text : Str
  src : Str
deriving DecidableEq

/- voice.py _rule_based_items_from_transcript. -/
def ruleBasedItems (transcript : Str) (settings : List (Str × Str)) : List MultiItem :=
  let taskCat := findCategoryByKeywords settings taskCatKws
  let ideaCat := findCategoryByKeywords settings ideaCatKws
  let expenseCat := findCategoryByKeywords settings expenseCatKws
  if taskCat = none ∧ ideaCat = none ∧ expenseCat = none then []
  else
    (splitSentences transcript).flatMap (fun sentence =>
      (splitClauses sentence).flatMap (fun part =>
        (splitByAndIfMulti part).flatMap (fun sub =>
          let category := classifyClause sub taskCat ideaCat expenseCat
          if category = [] then []
          else if some category = taskCat then
            (splitTaskPart sub).map (fun s => ⟨category, s, ("rule").data⟩)
          else [⟨category, strip sub, ("rule").data⟩])))

/- voice.py keyword lists of _ensure_expected_categories. -/
def ensureTaskKws : List Str :=
  [("надо").data, ("нужно").data, ("задач").data, ("сделать").data, ("поставить").data,
   ("видео").data, ("созвон").data, ("позвон").data, ("встрет").data]

def ensureIdeaKws : List Str :=
  [("иде").data, ("идея").data, ("idea").data, ("мечта").data, ("план").data,
   ("создать").data]

def ensureExpenseKws : List Str :=
  [("потрат").data, ("заплатил").data, ("купил").data, ("расход").data,
   ("expense").data, ("spend").data, ("руб").data, ("рубл").data,
   ("доллар").data, ("магазин").data]

def hasCategory (items : List MultiItem) (c : Str) : Bool :=
  items.any (fun it => it.category = c)

/- voice.py _ensure_expected_categories. -/
def ensureExpectedCategories (transcript : Str) (settings : List (Str × Str))
    (items : List MultiItem) : List MultiItem :=
  let lowered := lower transcript
  let taskCat := findCategoryByKeywords settings taskCatKws
  let ideaCat := findCategoryByKeywords settings ideaCatKws
  let expenseCat := findCategoryByKeywords settings expenseCatKws
  let r1 :=
    match taskCat with
    | some c =>
      if containsAny lowered ensureTaskKws ∧ ¬ hasCategory items c then
        items ++ [⟨c, extractSentence transcript ensureTaskKws, ("heuristic").data⟩]
      else items
    | none => items
  let r2 :=
    match ideaCat with
    | some c =>
      if containsAny lowered ensureIdeaKws ∧ ¬ hasCategory r1 c then
        r1 ++ [⟨c, extractSentence transcript ensureIdeaKws, ("heuristic").data⟩]
      else r1
    | none => r1
  match expenseCat with
  | some c =>
    if containsAny lowered ensureExpenseKws ∧ ¬ hasCategory r2 c then
      r2 ++ [⟨c, extractSentence transcript ensureExpenseKws, ("heuristic").data⟩]
    else r2
  | none => r2

/- One item of the multi-split LLM JSON response. -/
structure RawItem where
  category : Option Str
  text : Option Str
deriving DecidableEq

/- voice.py _split_multi_items.  The LLM call is a parameter: an exception
   (error), a response whose items key is missing or not a list (ok none),
   or an item list. -/
def splitMultiItems (transcript : Str) (settings : List (Str × Str))
    (llm : Except Unit (Option (List RawItem))) : List MultiItem :=
  let ruleItems := ruleBasedItems transcript settings
  if 1 ≤ signalCount (explicitCategorySignals transcript) ∧ ruleItems ≠ [] then ruleItems
  else
    match llm with
    | .error _ => [⟨[], transcript, []⟩]
    | .ok none => [⟨[], transcript, []⟩]
    | .ok (some items) =>
      if items = [] then [⟨[], transcript, []⟩]
      else
        let normalizedMap : List (Str × Str) :=
          settings.foldl (fun m p => updateAssoc m (lower (strip p.1)) p.1) []
        let result := items.map (fun it =>
          let category := strip (it.category.getD [])
          let text := (fun t => if t = [] then transcript else t) (strip (it.text.getD []))
          let canonical := (lookupAssoc normalizedMap (lower (strip category))).getD []
          (⟨canonical, text, []⟩ : MultiItem))
        ensureExpectedCategories transcript settings result

/- voice.py keyword lists of _expand_item_text. -/
def expandExpenseTrig : List Str :=
  [("трат").data, ("расход").data, ("expense").data, ("spend").data]

def expandExpenseKws : List Str :=
  [("потрат").data, ("купил").data, ("заплатил").data, ("руб").data,
   ("доллар").data, ("подписк").data, ("магазин").data]

def expandIdeaTrig : List Str := [("иде").data, ("idea").data]

def expandIdeaKws : List Str :=
  [("иде").data, ("идея").data, ("хочу").data, ("план").data, ("курс").data,
   ("запустить").data, ("создать").data]

def expandTaskTrig : List Str := [("задач").data, ("task").data, ("todo").data]

def expandTaskKws : List Str :=
  [("задач").data, ("нужно").data, ("надо").data, ("сделать").data,
   ("созвон").data, ("позвон").data, ("видео").data]

def expandDefaultKws : List Str :=
  [("надо").data, ("нужно").data, ("хочу").data, ("потрат").data,
   ("иде").data, ("задач").data]

/- voice.py _expand_item_text. -/
def expandItemText (itemText : Str) (transcript : Str) (category : Str) : Str :=
  let itemText := if strip itemText = [] then strip transcript else strip itemText
  let wordCount := (words itemText).length
  let categoryLower := lower category
  let kws :=
    if expandExpenseTrig.any (fun k => containsSub categoryLower k) then expandExpenseKws
    else if expandIdeaTrig.any (fun k => containsSub categoryLower k) then expandIdeaKws
    else if expandTaskTrig.any (fun k => containsSub categoryLower k) then expandTaskKws
    else expandDefaultKws
  let expanded := extractSentence transcript kws
  if wordCount < (words expanded).length then expanded else itemText

/- ## delete_service.py -/

structure DeleteCandidate where
  sheetName : Str
  rowIndex : Nat
  headers : List Str
  rowValues : List Str
  preview : Str
deriving DecidableEq

structure DeleteFilters where
  sheetKeywords : Option (List Str)
  startDate : Option Int
  endDate : Option Int
deriving DecidableEq

def isTokenChar (c : Char) : Bool :=
  ('a' ≤ c ∧ c ≤ 'z') ∨ ('а' ≤ c ∧ c ≤ 'я') ∨ ('0' ≤ c ∧ c ≤ '9')

/- re.findall(r"[a-zа-я0-9]+", text.lower()): maximal runs of token chars. -/
def tokenRunsAux : Str → Str → List Str
  | cur, [] => if cur = [] then [] else [cur.reverse]
  | cur, c :: rest =>
    if isTokenChar c then tokenRunsAux (c :: cur) rest
    else if cur = [] then tokenRunsAux [] rest
    else cur.reverse :: tokenRunsAux [] rest

/- delete_service.py _tokenize. -/
def tokenize (text : Str) : List Str :=
  (tokenRunsAux [] (lower text)).filter (fun t => 2 < t.length)

/- delete_service.py _score. -/
def scoreTokens (tokens : List Str) (text : Str) : Nat :=
  if tokens = [] then 0
  else (tokens.filter (fun t => containsSub (lower text) t)).length

def stopWordsList : List Str :=
  [("удали").data, ("удалить").data, ("удалип").data, ("удаление").data,
   ("за").data, ("последние").data, ("последний").data, ("последнюю").data,
   ("последних").data, ("день").data, ("дня").data, ("дней").data,
   ("сегодня").data, ("вчера").data, ("позавчера").data, ("задачи").data,
   ("задача").data, ("task").data, ("tasks").data]

def matchLit (lit : Str) (s : Str) : Option Str :=
  if lit.isPrefixOf s then some (s.drop lit.length) else none

/- Match of \s+ (at least one whitespace character, taken greedily). -/
def wsRun1 (s : Str) : Option Str :=
  match s with
  | c :: rest => if isSpace c then some (rest.dropWhile isSpace) else none
  | [] => none

def wordRun (s : Str) : Str := s.dropWhile isWordChar

/- Head match of the "last N days" regex of _infer_filters:
   (?:за\s+последн\w*|последн\w*|за\s+прошл\w*|last)\s+(\d+)\s*(?:дн\w*|days),
   alternatives tried in source order. -/
def lastDaysHeadMatch (s : Str) : Option Nat :=
  let alt1 := do
    let s1 ← matchLit (("за").data) s
    let s2 ← wsRun1 s1
    let s3 ← matchLit (("последн").data) s2
    pure (wordRun s3)
  let alt2 := do
    let s1 ← matchLit (("последн").data) s
    pure (wordRun s1)
  let alt3 := do
    let s1 ← matchLit (("за").data) s
    let s2 ← wsRun1 s1
    let s3 ← matchLit (("прошл").data) s2
    pure (wordRun s3)
  let alt4 := matchLit (("last").data) s
  let headAlt :=
    match alt1 with
    | some r => some r
    | none =>
      match alt2 with
      | some r => some r
      | none => match alt3 with | some r => some r | none => alt4
  match headAlt with
  | none => none
  | some s1 =>
    match wsRun1 s1 with
    | none => none
    | some s2 =>
      let ds := s2.takeWhile Char.isDigit
      if ds = [] then none
      else
        let s3 := (s2.dropWhile Char.isDigit).dropWhile isSpace
        if ((matchLit (("дн").data) s3).map wordRun).isSome ∨
           (matchLit (("days").data) s3).isSome then
          some (digitsToNat ds)
        else none

def lastDaysSearch : Str → Option Nat
  | [] => none
  | s@(_ :: rest) =>
    match lastDaysHeadMatch s with
    | some n => some n
    | none => lastDaysSearch rest

def deleteTaskTrig : List Str :=
  [("задач").data, ("task").data, ("todo").data, ("to-do").data]

def deleteIdeaTrig : List Str := [("иде").data, ("idea").data]

def deleteExpenseTrig : List Str :=
  [("трат").data, ("расход").data, ("expense").data, ("spend").data]

/- delete_service.py _infer_filters, with today passed explicitly. -/
def inferFilters (query : Str) (today : Int) : DeleteFilters :=
  let lowered := lower query
  let sk : List Str :=
    (if containsAny lowered deleteTaskTrig then [("задач").data, ("task").data] else []) ++
    (if containsAny lowered deleteIdeaTrig then [("иде").data, ("idea").data] else []) ++
    (if containsAny lowered deleteExpenseTrig then
      [("трат").data, ("расход").data, ("expense").data, ("spend").data] else [])
  let sheetKeywords := if sk = [] then none else some sk
  if containsSub lowered (("вчера").data) ∨ containsSub lowered (("yesterday").data) then
    ⟨sheetKeywords, some (today - 1), some (today - 1)⟩
  else if containsSub lowered (("позавчера").data) then
    ⟨sheetKeywords, some (today - 2), some (today - 2)⟩
  else
    match lastDaysSearch lowered with
    | some n =>
      let days : Int := max 1 (min (n : Int) 365)
      ⟨sheetKeywords, some (today - (days - 1)), some today⟩
    | none =>
      if containsSub lowered (("сегодня").data) ∨ containsSub lowered (("today").data) then
        ⟨sheetKeywords, some today, some today⟩
      else ⟨sheetKeywords, none, none⟩

/- delete_service.py _match_sheet. -/
def matchSheet (name : Str) (kws : List Str) : Bool :=
  kws.any (fun k => containsSub (lower (strip name)) k)

def preferredDateKeys : List Str :=
  [("дата выполнения").data, ("дата").data, ("дата добавления").data,
   ("date").data, ("due date").data]

/- delete_service.py _find_date_index: the position of the first preferred key
   present among the normalized headers, keys tried in preference order. -/
def findDateIndex (headers : List Str) : Option Nat :=
  let normalized := headers.map (fun h => lower (strip h))
  match preferredDateKeys.find? (fun k => memStr k normalized) with
  | some k => normalized.indexOf? k
  | none => none

/- delete_service.py _parse_date. -/
def deleteParseDate (v : Str) : Option Int :=
  if v = [] then none else tryDateFormats v

/- delete_service.py _extract_row_date. -/
def extractRowDate (row : List Str) (idx : Option Nat) : Option Int :=
  match idx with
  | none => none
  | some i => if i < row.length then deleteParseDate (strip (row.getD i [])) else none

/- delete_service.py _row_to_text. -/
def rowToText (headers row : List Str) : Str :=
  lower (joinSpace ((List.range headers.length).map (fun i =>
    headers.getD i [] ++ (": ").data ++ row.getD i [])))

/- delete_service.py _make_preview. -/
def makePreview (sheetName : Str) (headers row : List Str) : Str :=
  let pairs := ((List.range headers.length).map (fun i =>
      (headers.getD i [], row.getD i []))).filterMap (fun p =>
    if strip p.2 ≠ [] then some (p.1 ++ (": ").data ++ p.2) else none)
  let preview := List.intercalate (("; ").data) pairs
  let preview := if 400 < preview.length then preview.take 397 ++ ("...").data else preview
  '[' :: (sheetName ++ ']' :: ' ' :: preview)

/- The body of the row loop in find_candidates; end_date is always set
   alongside start_date by _infer_filters. -/
/- The scoring tail of the row loop of find_candidates: score the surviving
   row, keep it when a query token matches, or as a pure filter match when the
   token list is empty but some filter was supplied. -/
def rowCandidateScore (filters : DeleteFilters) (tokens : List Str) (name : Str)
    (headers : List Str) (rowIdx : Nat) (row : List Str) :
    Option (Nat × DeleteCandidate) :=
  let recordText := rowToText headers row
  let sc := scoreTokens tokens recordText
  if tokens ≠ [] then
    if sc = 0 then none
    else some (sc, ⟨name, rowIdx, headers, row, makePreview name headers row⟩)
  else
    if filters.startDate = none ∧ filters.sheetKeywords = none then none
    else some (1, ⟨name, rowIdx, headers, row, makePreview name headers row⟩)

/- The body of the row loop in find_candidates (a continue is a none);
   end_date is always set alongside start_date by _infer_filters. -/
def rowCandidate (filters : DeleteFilters) (tokens : List Str) (name : Str)
    (headers : List Str) (dateIdx : Option Nat) (rowIdx : Nat) (row : List Str) :
    Option (Nat × DeleteCandidate) :=
  if ¬ row.any (fun cell => strip cell ≠ []) then none
  else
    match filters.startDate, filters.endDate with
    | some sd, some ed =>
      match extractRowDate row dateIdx with
      | none => none
      | some rd =>
        if rd < sd ∨ ed < rd then none
        else rowCandidateScore filters tokens name headers rowIdx row
    | some _, none => none
    | none, _ => rowCandidateScore filters tokens name headers rowIdx row

def excludedSheets : List Str :=
  [("settings").data, ("prompts").data, ("inbox").data, ("botsettings").data]

/- Index the data rows from 2 (the header row is row 1). -/
def enumRowsFrom (start : Nat) : List (List Str) → List (Nat × List Str)
  | [] => []
  | r :: rs => (start, r) :: enumRowsFrom (start + 1) rs

/- The per-sheet portion of DeleteService.find_candidates. -/
def sheetCandidates (store : Str → List (List Str)) (filters : DeleteFilters)
    (tokens : List Str) (name : Str) : List (Nat × DeleteCandidate) :=
  if memStr (lower (strip name)) excludedSheets then []
  else if (match filters.sheetKeywords with
           | some ks => !(matchSheet name ks)
           | none => false) then []
  else
    let rows := store name
    if rows.length < 2 then []
    else
      let headers := rows.headD []
      let dateIdx := if filters.startDate.isSome then findDateIndex headers else none
      (enumRowsFrom 2 (rows.drop 1)).filterMap (fun p =>
        rowCandidate filters tokens name headers dateIdx p.1 p.2)

/- DeleteService.find_candidates with the scores still attached: candidates
   accumulated sheet by sheet, stable-sorted by descending score, truncated. -/
def findCandidatesScored (sheetNames : List Str) (store : Str → List (List Str))
    (query : Str) (today : Int) (limit : Nat) : List (Nat × DeleteCandidate) :=
  let tokens0 := tokenize query
  let filters := inferFilters query today
  let tokens := tokens0.filter (fun t => ¬ memStr t stopWordsList)
  let all := (sheetNames.map (sheetCandidates store filters tokens)).flatten
  (sortScoredDesc all).take limit

def findCandidates (sheetNames : List Str) (store : Str → List (List Str))
    (query : Str) (today : Int) (limit : Nat) : List DeleteCandidate :=
  (findCandidatesScored sheetNames store query today limit).map (fun p => p.2)

/- ## voice.py intake step functions

   Each pure step function models one handler between the LLM extraction
   result (a parameter) and the terminal effect of the handler: prompting the
   user, suspending into a state, or appending the row.  The category sheet
   read performed by _find_duplicate is the fetch parameter. -/

inductive VoiceOutcome where
  | needsRequired (missing : List (Nat × Str)) (row : List Str)
  | askDuplicate (preview : Str) (row : List Str)
  | commitRow (row : List Str)
deriving DecidableEq

/- handle_voice from the extraction call to its terminal action
   (voice.py lines 238-310): post-process the row, suspend on missing
   mandatory fields, suspend on a duplicate hit, otherwise append. -/
def handleVoiceAfterExtract (fetch : Except Unit (List (List Str)))
    (headers row0 : List Str) (transcript : Str) (today : Int) : VoiceOutcome :=
  let row := applyTextFields headers row0 transcript
  let row := applyDateFields headers row transcript today
  match getMissingRequired headers row with
  | m :: ms => .needsRequired (m :: ms) row
  | [] =>
    match findDuplicate fetch headers row 50 with
    | some p => .askDuplicate p row
    | none => .commitRow row

inductive ItemOutcome where
  | noHeaders
  | pendingRequired (row : List Str)
  | duplicateSkipped
  | committed (row : List Str)
deriving DecidableEq

/- The per-item body of _process_multi_items after category resolution and
   extraction (voice.py lines 1652-1689): queue the item when mandatory
   fields are missing, silently skip it on a duplicate hit, else append. -/
def processMultiItem (fetch : Except Unit (List (List Str)))
    (headers row0 : List Str) (itemText : Str) (today : Int) : ItemOutcome :=
  if headers = [] then .noHeaders
  else
    let row := applyTextFields headers row0 itemText
    let row := applyDateFields headers row itemText today
    match getMissingRequired headers row with
    | _ :: _ => .pendingRequired row
    | [] =>
      match findDuplicate fetch headers row 50 with
      | some _ => .duplicateSkipped
      | none => .committed row

inductive FinalizeOutcome where
  | duplicateSkipped
  | committed (row : List Str)
deriving DecidableEq

/- _finalize_multi_item (voice.py lines 1773-1798): post-process, then skip
   silently on a duplicate hit, else append.  nowOrd stands for
   datetime.now().date(), the fallback when today_str does not parse. -/
def finalizeMultiItem (fetch : Except Unit (List (List Str))) (headers row : List Str)
    (transcript : Str) (todayStr : Str) (nowOrd : Int) : FinalizeOutcome :=
  let today := (parseDateValue todayStr).getD nowOrd
  let row := applyTextFields headers row transcript
  let row := applyDateFields headers row transcript today
  match findDuplicate fetch headers row 50 with
  | some _ => .duplicateSkipped
  | none => .committed row

inductive ReqTextOutcome where
  | cancelled
  | contextLost
  | crash
  | promptAgain (row : List Str)
  | askDuplicate (preview : Str) (row : List Str)
  | committed (row : List Str)
deriving DecidableEq

def cancelWords : List Str := [("отмена").data, ("cancel").data, ("стоп").data]

def skipWords : List Str := [("off").data, ("пропустить").data, ("skip").data]

/- The shared tail of handle_required_fields after the row update: re-check
   mandatory fields, then the duplicate check, then the append path.  The
   append path at voice.py line 818 evaluates the name today_date, which is
   not defined in any enclosing scope of that handler, so it raises NameError
   (crash) before reaching append_row. -/
def requiredFieldsContinue (fetch : Except Unit (List (List Str)))
    (headers row : List Str) : ReqTextOutcome :=
  match getMissingRequired headers row with
  | _ :: _ => .promptAgain row
  | [] =>
    match findDuplicate fetch headers row 50 with
    | some p => .askDuplicate p row
    | none => .crash

/- handle_required_fields (voice.py lines 733-829) on a free-text reply in
   the waiting_required state, single-item flow.  The skip branch (lines
   757-770) likewise evaluates the undefined name today_date at line 759 and
   raises NameError (crash) before any append; crash also models the
   unguarded row[idx] = text when idx is out of range (line 778). -/
def handleRequiredFieldsText (fetch : Except Unit (List (List Str)))
    (category : Str) (headers row : List Str) (rawText : Str) : ReqTextOutcome :=
  let text := strip rawText
  if memStr (lower text) cancelWords then .cancelled
  else if category = [] ∨ headers = [] ∨ row = [] then .contextLost
  else if memStr (lower text) skipWords then .crash
  else
    let required := getMissingRequired headers row
    let reqMap := buildRequiredMap required
    let updates := parseKeyValues text reqMap
    if updates = [] ∧ required.length = 1 then
      match required with
      | (idx, _) :: _ =>
        if idx < row.length then requiredFieldsContinue fetch headers (row.set idx text)
        else .crash
      | [] => .crash
    else requiredFieldsContinue fetch headers (applyUpdates row updates)

inductive PriorityOutcome where
  | unknownPriority
  | contextLost
  | noPriorityField
  | promptRequired (row : List Str)
  | askDuplicate (preview : Str) (row : List Str)
  | committed (row : List Str)
deriving DecidableEq

def priorityValue (code : Str) : Option Str :=
  if code = ("low").data then some (("Низкий").data)
  else if code = ("medium").data then some (("Средний").data)
  else if code = ("high").data then some (("Высокий").data)
  else none

def firstPriorityIdxFrom : Nat → List Str → Option Nat
  | _, [] => none
  | i, h :: hs =>
    if isPriorityHeader (displayHeader h) then some i
    else firstPriorityIdxFrom (i + 1) hs

def firstPriorityIdx (headers : List Str) : Option Nat := firstPriorityIdxFrom 0 headers

/- handle_required_priority, single-item branch (voice.py lines 424-554):
   fill the priority cell, re-check mandatory fields, duplicate check, then
   post-process and append. -/
def handleRequiredPriority (fetch : Except Unit (List (List Str)))
    (category : Str) (headers row : List Str) (transcript : Str)
    (todayStr : Str) (nowOrd : Int) (code : Str) : PriorityOutcome :=
  match priorityValue code with
  | none => .unknownPriority
  | some value =>
    let todayOrd := (parseDateValue todayStr).getD nowOrd
    let row := row ++ List.replicate (headers.length - row.length) []
    if category = [] ∨ headers = [] ∨ row = [] then .contextLost
    else
      match firstPriorityIdx headers with
      | none => .noPriorityField
      | some idx =>
        let row := if idx < row.length then row.set idx value else row
        match getMissingRequired headers row with
        | _ :: _ => .promptRequired row
        | [] =>
          match findDuplicate fetch headers row 50 with
          | some p => .askDuplicate p row
          | none =>
            let row := applyTextFields headers row transcript
            let row := applyDateFields headers row transcript todayOrd
            .committed row

inductive ConfirmOutcome where
  | contextLost
  | committed (row : List Str)
deriving DecidableEq

/- confirm_duplicate_add, single-item branch (voice.py lines 556-596):
   the user chose add anyway, so post-process and append unconditionally. -/
def confirmDuplicateAdd (category : Str) (headers row : List Str)
    (transcript : Str) (todayStr : Str) (nowOrd : Int) : ConfirmOutcome :=
  let todayOrd := (parseDateValue todayStr).getD nowOrd
  if category = [] ∨ headers = [] ∨ row = [] then .contextLost
  else
    let row := applyTextFields headers row transcript
    let row := applyDateFields headers row transcript todayOrd
    .committed row

/- ## Lemmas: basic string facts -/

theorem strip_eq_nil_iff (s : Str) : strip s = [] ↔ ∀ c ∈ s, isSpace c := by
  unfold strip stripBy rstripBy lstripBy
  rw [List.reverse_eq_nil_iff, List.dropWhile_eq_nil_iff]
  constructor
  · intro h c hc
    have hsplit := List.takeWhile_append_dropWhile (p := isSpace) (l := s)
    rw [← hsplit] at hc
    rcases List.mem_append.mp hc with h1 | h2
    · exact List.mem_takeWhile_imp h1
    · exact h c (List.mem_reverse.mpr h2)
  · intro h c hc
    exact h c ((List.dropWhile_sublist isSpace).mem (List.mem_reverse.mp hc))

theorem strip_ne_nil_of_mem {s : Str} {c : Char} (hc : c ∈ s) (hns : ¬ isSpace c) :
    strip s ≠ [] := by
  intro h
  exact hns ((strip_eq_nil_iff s).mp h c hc)

theorem wordsAux_sound (s : Str) : ∀ cur, (∀ c ∈ cur, ¬ isSpace c) →
    ∀ w ∈ wordsAux cur s, w ≠ [] ∧ ∀ c ∈ w, ¬ isSpace c := by
  induction s with
  | nil =>
    intro cur hcur w hw
    unfold wordsAux at hw
    by_cases h : cur = []
    · simp [h] at hw
    · simp [h] at hw
      subst hw
      refine ⟨by simpa using h, ?_⟩
      intro c hc
      exact hcur c (List.mem_reverse.mp hc)
  | cons c rest ih =>
    intro cur hcur w hw
    unfold wordsAux at hw
    by_cases hsp : isSpace c
    · simp only [hsp, if_true] at hw
      by_cases h : cur = []
      · simp only [h, if_true] at hw
        exact ih [] (by simp) w hw
      · simp only [h, if_false] at hw
        rcases List.mem_cons.mp hw with h1 | h2
        · subst h1
          refine ⟨by simpa using h, ?_⟩
          intro d hd
          exact hcur d (List.mem_reverse.mp hd)
        · exact ih [] (by simp) w h2
    · simp only [hsp, if_false] at hw
      refine ih (c :: cur) ?_ w hw
      intro d hd
      rcases List.mem_cons.mp hd with h1 | h2
      · subst h1; exact hsp
      · exact hcur d h2

theorem words_sound (s : Str) : ∀ w ∈ words s, w ≠ [] ∧ ∀ c ∈ w, ¬ isSpace c :=
  wordsAux_sound s [] (by simp)

theorem joinSpace_mem_left {c : Char} {w : Str} (hc : c ∈ w) (ws : List Str) :
    c ∈ joinSpace (w :: ws) := by
  cases ws with
  | nil => simpa [joinSpace] using hc
  | cons w2 ws2 =>
    unfold joinSpace
    exact List.mem_append_left _ hc

theorem strip_joinSpace_words_ne {s : Str} (h : joinSpace (words s) ≠ []) :
    strip (joinSpace (words s)) ≠ [] := by
  cases hw : words s with
  | nil => rw [hw] at h; simp [joinSpace] at h
  | cons w ws =>
    have hsw := words_sound s w (by rw [hw]; exact List.mem_cons_self w ws)
    obtain ⟨hne, hns⟩ := hsw
    cases w with
    | nil => exact absurd rfl hne
    | cons c cs =>
      exact strip_ne_nil_of_mem (joinSpace_mem_left (List.mem_cons_self c cs) ws)
        (hns c (List.mem_cons_self c cs))

theorem strip_makeSummary_ne (t : Str) (ht : strip t ≠ []) : strip (makeSummary t) ≠ [] := by
  unfold makeSummary
  simp only [ht, if_false]
  set s1 := makeSummaryLoop ((strip t).length + 1) (strip t) with hs1
  set s2 := (match summarySufList.find? (fun p => p.isSuffixOf (lower s1)) with
    | some p => rstripPunct (s1.take (s1.length - p.length))
    | none => s1) with hs2
  set s3 := joinSpace (words s2) with hs3
  by_cases h160 : 160 < s3.length
  · simp only [h160, if_true]
    have hdot : '.' ∈ rstrip (s3.take 157) ++ ("...").data := by
      apply List.mem_append_right
      simp [String.data]
    intro hcon
    by_cases hnil : rstrip (s3.take 157) ++ ("...").data = []
    · simp at hnil
    · simp only [hnil, if_false] at hcon
      exact strip_ne_nil_of_mem hdot (by decide) hcon
  · simp only [h160, if_false]
    by_cases hnil : s3 = []
    · simp only [hnil, if_true]
      exact ht
    · simp only [hnil, if_false]
      exact strip_joinSpace_words_ne (hs3 ▸ hnil)

/- ## Lemmas: cell-level behaviour of the row transforms -/

theorem getD_set {α : Type} (l : List α) (j i : Nat) (v d : α) :
    (l.set j v).getD i d = if j = i ∧ j < l.length then v else l.getD i d := by
  rw [List.getD_eq_getElem?_getD, List.getD_eq_getElem?_getD, List.getElem?_set]
  by_cases h1 : j = i
  · subst h1
    by_cases h2 : j < l.length
    · simp [h2]
    · rw [List.getElem?_eq_none (by omega)]
      simp [h2]
  · simp [h1]

theorem applyHeaderDates_length (p : Str → Bool) (v : Str) (hs row : List Str) :
    (applyHeaderDates p v hs row).length = row.length := by
  induction hs generalizing row with
  | nil => cases row <;> simp [applyHeaderDates]
  | cons h hs ih =>
    cases row with
    | nil => simp [applyHeaderDates]
    | cons c cs => simp [applyHeaderDates, ih]

theorem applyHeaderDates_getD (p : Str → Bool) (v : Str) (hs row : List Str) (i : Nat) :
    (applyHeaderDates p v hs row).getD i [] = row.getD i [] ∨
    (applyHeaderDates p v hs row).getD i [] = v := by
  induction hs generalizing row i with
  | nil => cases row <;> simp [applyHeaderDates]
  | cons h hs ih =>
    cases row with
    | nil => simp [applyHeaderDates]
    | cons c cs =>
      cases i with
      | zero =>
        simp only [applyHeaderDates, List.getD_cons_zero]
        by_cases hp : p h <;> simp [hp]
      | succ n =>
        simp only [applyHeaderDates, List.getD_cons_succ]
        exact ih cs n

theorem applyTextFields_shape (headers row : List Str) (t : Str) :
    ∃ row1, (row1 = row ∨ ∃ k, row1 = row.set k t) ∧
      (applyTextFields headers row t = row1 ∨
       ∃ m, applyTextFields headers row t = row1.set m (makeSummary t)) := by
  unfold applyTextFields
  cases findHeaderIndex headers rawNames with
  | none =>
    refine ⟨row, Or.inl rfl, ?_⟩
    cases findHeaderIndex headers summaryNames with
    | none => exact Or.inl rfl
    | some j =>
      dsimp only
      by_cases hj : j < row.length
      · rw [if_pos hj]
        split
        · exact Or.inr ⟨j, rfl⟩
        · exact Or.inl rfl
      · rw [if_neg hj]
        exact Or.inl rfl
  | some k =>
    dsimp only
    by_cases hk : k < row.length
    · rw [if_pos hk]
      refine ⟨row.set k t, Or.inr ⟨k, rfl⟩, ?_⟩
      cases findHeaderIndex headers summaryNames with
      | none => exact Or.inl rfl
      | some j =>
        dsimp only
        by_cases hj : j < (row.set k t).length
        · rw [if_pos hj]
          split <;> split <;> first
            | exact Or.inr ⟨j, rfl⟩
            | exact Or.inl rfl
        · rw [if_neg hj]
          exact Or.inl rfl
    · rw [if_neg hk]
      refine ⟨row, Or.inl rfl, ?_⟩
      cases findHeaderIndex headers summaryNames with
      | none => exact Or.inl rfl
      | some j =>
        dsimp only
        by_cases hj : j < row.length
        · rw [if_pos hj]
          split <;> split <;> first
            | exact Or.inr ⟨j, rfl⟩
            | exact Or.inl rfl
        · rw [if_neg hj]
          exact Or.inl rfl

theorem applyTextFields_length (headers row : List Str) (t : Str) :
    (applyTextFields headers row t).length = row.length := by
  obtain ⟨row1, h1, h2⟩ := applyTextFields_shape headers row t
  rcases h2 with h2 | ⟨m, h2⟩ <;> rcases h1 with h1 | ⟨k, h1⟩ <;> rw [h2, h1] <;>
    simp [List.length_set]

theorem applyTextFields_getD (headers row : List Str) (t : Str) (i : Nat) :
    (applyTextFields headers row t).getD i [] = row.getD i [] ∨
    (applyTextFields headers row t).getD i [] = t ∨
    (applyTextFields headers row t).getD i [] = makeSummary t := by
  obtain ⟨row1, h1, h2⟩ := applyTextFields_shape headers row t
  rcases h2 with h2 | ⟨m, h2⟩ <;> rcases h1 with h1 | ⟨k, h1⟩ <;> rw [h2, h1]
  · left; rfl
  · rw [getD_set]
    split
    · right; left; rfl
    · left; rfl
  · rw [getD_set]
    split
    · right; right; rfl
    · left; rfl
  · rw [getD_set, getD_set]
    split
    · right; right; rfl
    · split
      · right; left; rfl
      · left; rfl

theorem applyDateFields_getD (headers row : List Str) (t : Str) (today : Int) (i : Nat) :
    (applyDateFields headers row t today).getD i [] = row.getD i [] ∨
    ∃ z, (applyDateFields headers row t today).getD i [] = formatDate z := by
  unfold applyDateFields
  cases extractExplicitDate t with
  | some z0 =>
    dsimp only
    rcases applyHeaderDates_getD
        (fun h => memStr (strip (lower (displayHeader h))) dueDateNames) (formatDate z0)
        headers (applyHeaderDates (headerKeyIs (("дата добавления").data)) (formatDate today)
          headers row) i with h1 | h1
    · rcases applyHeaderDates_getD (headerKeyIs (("дата добавления").data)) (formatDate today)
          headers row i with h2 | h2
      · left; rw [h1, h2]
      · right; exact ⟨today, by rw [h1, h2]⟩
    · right; exact ⟨z0, h1⟩
  | none =>
    dsimp only
    cases extractRelativeDate t today with
    | some z1 =>
      dsimp only
      rcases applyHeaderDates_getD
          (fun h => memStr (strip (lower (displayHeader h))) dueDateNames) (formatDate z1)
          headers (applyHeaderDates (headerKeyIs (("дата добавления").data)) (formatDate today)
            headers row) i with h1 | h1
      · rcases applyHeaderDates_getD (headerKeyIs (("дата добавления").data)) (formatDate today)
            headers row i with h2 | h2
        · left; rw [h1, h2]
        · right; exact ⟨today, by rw [h1, h2]⟩
      · right; exact ⟨z1, h1⟩
    | none =>
      dsimp only
      rcases applyHeaderDates_getD (headerKeyIs (("дата добавления").data)) (formatDate today)
          headers row i with h2 | h2
      · left; exact h2
      · right; exact ⟨today, h2⟩

theorem applyDateFields_length (headers row : List Str) (t : Str) (today : Int) :
    (applyDateFields headers row t today).length = row.length := by
  unfold applyDateFields
  cases extractExplicitDate t with
  | some z0 => dsimp only; rw [applyHeaderDates_length, applyHeaderDates_length]
  | none =>
    dsimp only
    cases extractRelativeDate t today with
    | some z1 => dsimp only; rw [applyHeaderDates_length, applyHeaderDates_length]
    | none => dsimp only; rw [applyHeaderDates_length]

theorem strip_formatDate_ne (z : Int) : strip (formatDate z) ≠ [] := by
  unfold formatDate
  obtain ⟨y, m, d⟩ := fromOrdinal z
  refine strip_ne_nil_of_mem (c := '.') ?_ (by decide)
  exact List.mem_append_right _ (List.mem_cons_self _ _)

/- ## Lemmas: the missing-mandatory-field check -/

theorem missingRequiredFrom_eq_nil (row : List Str) (i : Nat) (hs : List Str) :
    missingRequiredFrom row i hs = [] ↔
      ∀ j, ∀ h : j < hs.length, endsWithStar (strip (hs.get ⟨j, h⟩)) = true →
        strip (row.getD (i + j) []) ≠ [] := by
  induction hs generalizing i with
  | nil => simp [missingRequiredFrom]
  | cons hd tl ih =>
    unfold missingRequiredFrom
    by_cases hc : endsWithStar (strip hd) = true ∧ strip (row.getD i []) = []
    · rw [if_pos hc]
      simp only [List.cons_ne_nil, false_iff]
      intro hall
      exact (hall 0 (by simp) (by simpa using hc.1)) (by simpa using hc.2)
    · rw [if_neg hc]
      rw [ih (i + 1)]
      constructor
      · intro hall j hj hstar
        cases j with
        | zero =>
          intro hemp
          exact hc ⟨by simpa using hstar, by simpa using hemp⟩
        | succ n =>
          have := hall n (by simpa using Nat.lt_of_succ_lt_succ hj) (by simpa using hstar)
          simpa [Nat.add_assoc, Nat.add_comm 1 n] using this
      · intro hall j hj hstar
        have := hall (j + 1) (by simpa using Nat.succ_lt_succ hj) (by simpa using hstar)
        simpa [Nat.add_assoc, Nat.add_comm 1 j] using this

theorem getMissingRequired_eq_nil (headers row : List Str) :
    getMissingRequired headers row = [] ↔
      ∀ j, ∀ h : j < headers.length, endsWithStar (strip (headers.get ⟨j, h⟩)) = true →
        strip (row.getD j []) ≠ [] := by
  unfold getMissingRequired
  rw [missingRequiredFrom_eq_nil]
  simp

/- Post-processing a row whose mandatory cells are all filled, by a transcript
   with nonempty strip, leaves all mandatory cells filled: the two passes only
   overwrite cells with the transcript, the regenerated summary, or a formatted
   date, all of which have nonempty strip. -/
theorem applies_preserve_missing (headers row : List Str) (t : Str) (today : Int)
    (ht : strip t ≠ []) (h0 : getMissingRequired headers row = []) :
    getMissingRequired headers
      (applyDateFields headers (applyTextFields headers row t) t today) = [] := by
  rw [getMissingRequired_eq_nil] at h0 ⊢
  intro j hj hstar
  have hold := h0 j hj hstar
  rcases applyDateFields_getD headers (applyTextFields headers row t) t today j with h1 | ⟨z, h1⟩
  · rw [h1]
    rcases applyTextFields_getD headers row t j with h2 | h2 | h2
    · rw [h2]; exact hold
    · rw [h2]; exact ht
    · rw [h2]; exact strip_makeSummary_ne t ht
  · rw [h1]
    exact strip_formatDate_ne z

/- ## Lemmas: the duplicate predicate -/

theorem isDuplicate_eq_spec (a b c d e f : Str) :
    isDuplicate a b c d e f = specIsDuplicate a b c d e f := by
  unfold isDuplicate sameOrEmpty specIsDuplicate
  by_cases h1 : a ≠ [] ∧ d ≠ [] ∧ normalizeText a = normalizeText d <;>
    by_cases h2 : b ≠ [] ∧ e ≠ [] ∧ normalizeText b = normalizeText e <;>
    by_cases h3 : c = [] ∨ f = [] <;>
    by_cases h4 : normalizeText c = normalizeText f <;>
    simp [h1, h2, h3, h4]

theorem requiredFieldsContinue_ne_committed (fetch : Except Unit (List (List Str)))
    (headers row : List Str) (r : List Str) :
    requiredFieldsContinue fetch headers row ≠ .committed r := by
  unfold requiredFieldsContinue
  cases getMissingRequired headers row with
  | cons a l => simp
  | nil =>
    cases findDuplicate fetch headers row 50 with
    | some p => simp
    | none => simp

/- ## Claim theorems -/

/-- C7: duplicate search over a successfully read category sheet examines at
most the 50 most recent data rows, scanning newest-first, and reports the
preview of the newest row that matches the new row, where a match holds
exactly when (the summary columns are both nonempty and equal after
case/whitespace normalization, or the raw-text columns are, under the same
normalization) and the dates are equal after normalization or either date is
empty. -/
theorem C7_find_duplicate_spec (rows : List (List Str)) (headers row : List Str) :
    (pySliceLast 50 (rows.drop 1)).length ≤ 50 ∧
    findDuplicate (Except.ok rows) headers row 50 =
      ((pySliceLast 50 (rows.drop 1)).reverse.find? (fun old =>
          specIsDuplicate (getValueByHeaders headers row summaryNames)
            (getValueByHeaders headers row rawNames)
            (getValueByHeaders headers row dupDateNames)
            (getValueByHeaders (rows.headD []) old summaryNames)
            (getValueByHeaders (rows.headD []) old rawNames)
            (getValueByHeaders (rows.headD []) old dupDateNames))).map
        (formatDuplicatePreview (rows.headD [])) := by
  constructor
  · rw [pySliceLast, if_neg (by decide)]
    simp only [List.length_drop]
    omega
  · unfold findDuplicate
    dsimp only
    by_cases hlen : rows.length < 2
    · rw [if_pos hlen]
      have hdrop : rows.drop 1 = [] := by
        apply List.eq_nil_of_length_eq_zero
        rw [List.length_drop]
        omega
      rw [pySliceLast, if_neg (by decide), hdrop]
      simp
    · rw [if_neg hlen]
      have hfun : (fun old => isDuplicate
            (getValueByHeaders headers row summaryNames)
            (getValueByHeaders headers row rawNames)
            (getValueByHeaders headers row dupDateNames)
            (getValueByHeaders (rows.headD []) old summaryNames)
            (getValueByHeaders (rows.headD []) old rawNames)
            (getValueByHeaders (rows.headD []) old dupDateNames)) =
          (fun old => specIsDuplicate
            (getValueByHeaders headers row summaryNames)
            (getValueByHeaders headers row rawNames)
            (getValueByHeaders headers row dupDateNames)
            (getValueByHeaders (rows.headD []) old summaryNames)
            (getValueByHeaders (rows.headD []) old rawNames)
            (getValueByHeaders (rows.headD []) old dupDateNames)) :=
        funext fun old => isDuplicate_eq_spec _ _ _ _ _ _
      rw [hfun]
      cases hfind : (pySliceLast 50 (rows.drop 1)).reverse.find? (fun old => specIsDuplicate
          (getValueByHeaders headers row summaryNames)
          (getValueByHeaders headers row rawNames)
          (getValueByHeaders headers row dupDateNames)
          (getValueByHeaders (rows.headD []) old summaryNames)
          (getValueByHeaders (rows.headD []) old rawNames)
          (getValueByHeaders (rows.headD []) old dupDateNames)) with
      | some old => simp [hfind]
      | none => simp [hfind]

/-- C8: the duplicate predicate is symmetric in the two rows: swapping the
summary, raw-text and date fields of the new and the existing row does not
change the verdict. -/
theorem C8_duplicate_symmetric (a b c d e f : Str) :
    isDuplicate a b c d e f = isDuplicate d e f a b c := by
  rw [isDuplicate_eq_spec, isDuplicate_eq_spec]
  unfold specIsDuplicate
  rw [decide_eq_decide]
  have hdate : ∀ u v : Str, (u = [] ∨ v = [] ∨ normalizeText u = normalizeText v) →
      (v = [] ∨ u = [] ∨ normalizeText v = normalizeText u) := by
    intro u v h
    rcases h with h | h | h
    · exact Or.inr (Or.inl h)
    · exact Or.inl h
    · exact Or.inr (Or.inr h.symm)
  constructor
  · rintro (⟨⟨x, y, z⟩, hd⟩ | ⟨⟨x, y, z⟩, hd⟩)
    · exact Or.inl ⟨⟨y, x, z.symm⟩, hdate c f hd⟩
    · exact Or.inr ⟨⟨y, x, z.symm⟩, hdate c f hd⟩
  · rintro (⟨⟨x, y, z⟩, hd⟩ | ⟨⟨x, y, z⟩, hd⟩)
    · exact Or.inl ⟨⟨y, x, z.symm⟩, hdate f c hd⟩
    · exact Or.inr ⟨⟨y, x, z.symm⟩, hdate f c hd⟩

/-- C10: duplicate detection fails open: when the category sheet read raises,
or the sheet has fewer than two rows, the duplicate check returns none and the
commit proceeds without any duplicate comparison. -/
theorem C10_duplicate_fails_open :
    (∀ headers row limit, findDuplicate (Except.error ()) headers row limit = none) ∧
    (∀ rows headers row limit, rows.length < 2 →
      findDuplicate (Except.ok rows) headers row limit = none) := by
  constructor
  · intro headers row limit
    rfl
  · intro rows headers row limit h
    unfold findDuplicate
    dsimp only
    rw [if_pos h]

/-- C10 witness: the fail-open behaviour at a concrete erroring read and at a
concrete one-row sheet. -/
theorem C10_duplicate_fails_open_witness :
    findDuplicate (Except.error ()) [] [] 50 = none ∧
    findDuplicate (Except.ok [[("x").data]]) [] [] 50 = none :=
  ⟨C10_duplicate_fails_open.1 [] [] 50,
   C10_duplicate_fails_open.2 [[("x").data]] [] [] 50 (by decide)⟩

/-- C1: on every intake path that appends a row without the user having
invoked skip — the direct handle_voice path, the multi-item per-item path, the
free-text required-field completion path (which in fact never reaches its
append because of the undefined today_date), the priority-selection path, the
duplicate-confirmation path, and the multi-item finalization path — the
committed row has no empty mandatory cell, granted the transcript carried by
the suspended state is not whitespace-only (handle_voice rejects empty
transcripts) and, for the paths that re-run post-processing after their
mandatory-field check, that the check had passed. -/
theorem C1_commit_mandatory_filled :
    (∀ fetch headers row0 t today r,
       handleVoiceAfterExtract fetch headers row0 t today = .commitRow r →
       getMissingRequired headers r = []) ∧
    (∀ fetch headers row0 t today r,
       processMultiItem fetch headers row0 t today = .committed r →
       getMissingRequired headers r = []) ∧
    (∀ fetch category headers row rawText r,
       handleRequiredFieldsText fetch category headers row rawText ≠ .committed r) ∧
    (∀ fetch category headers row t todayStr nowOrd code r,
       strip t ≠ [] →
       handleRequiredPriority fetch category headers row t todayStr nowOrd code =
         .committed r →
       getMissingRequired headers r = []) ∧
    (∀ category headers row t todayStr nowOrd r,
       strip t ≠ [] → getMissingRequired headers row = [] →
       confirmDuplicateAdd category headers row t todayStr nowOrd = .committed r →
       getMissingRequired headers r = []) ∧
    (∀ fetch headers row t todayStr nowOrd r,
       strip t ≠ [] → getMissingRequired headers row = [] →
       finalizeMultiItem fetch headers row t todayStr nowOrd = .committed r →
       getMissingRequired headers r = []) := by
  refine ⟨?_, ?_, ?_, ?_, ?_, ?_⟩
  · intro fetch headers row0 t today r hc
    unfold handleVoiceAfterExtract at hc
    dsimp only at hc
    cases hm : getMissingRequired headers
        (applyDateFields headers (applyTextFields headers row0 t) t today) with
    | cons a l => rw [hm] at hc; exact VoiceOutcome.noConfusion hc
    | nil =>
      rw [hm] at hc
      cases hd : findDuplicate fetch headers
          (applyDateFields headers (applyTextFields headers row0 t) t today) 50 with
      | some p => rw [hd] at hc; exact VoiceOutcome.noConfusion hc
      | none =>
        rw [hd] at hc
        cases hc
        exact hm
  · intro fetch headers row0 t today r hc
    unfold processMultiItem at hc
    by_cases hh : headers = []
    · rw [if_pos hh] at hc; exact ItemOutcome.noConfusion hc
    · rw [if_neg hh] at hc
      dsimp only at hc
      cases hm : getMissingRequired headers
          (applyDateFields headers (applyTextFields headers row0 t) t today) with
      | cons a l => rw [hm] at hc; exact ItemOutcome.noConfusion hc
      | nil =>
        rw [hm] at hc
        cases hd : findDuplicate fetch headers
            (applyDateFields headers (applyTextFields headers row0 t) t today) 50 with
        | some p => rw [hd] at hc; exact ItemOutcome.noConfusion hc
        | none =>
          rw [hd] at hc
          cases hc
          exact hm
  · intro fetch category headers row rawText r hc
    unfold handleRequiredFieldsText at hc
    dsimp only at hc
    split at hc
    · exact ReqTextOutcome.noConfusion hc
    split at hc
    · exact ReqTextOutcome.noConfusion hc
    split at hc
    · exact ReqTextOutcome.noConfusion hc
    split at hc
    · split at hc
      · split at hc
        · exact requiredFieldsContinue_ne_committed _ _ _ _ hc
        · exact ReqTextOutcome.noConfusion hc
      · exact ReqTextOutcome.noConfusion hc
    · exact requiredFieldsContinue_ne_committed _ _ _ _ hc
  · intro fetch category headers row t todayStr nowOrd code r ht hc
    unfold handleRequiredPriority at hc
    cases hpv : priorityValue code with
    | none => rw [hpv] at hc; exact PriorityOutcome.noConfusion hc
    | some value =>
      rw [hpv] at hc
      dsimp only at hc
      split at hc
      · exact PriorityOutcome.noConfusion hc
      cases hfp : firstPriorityIdx headers with
      | none => rw [hfp] at hc; exact PriorityOutcome.noConfusion hc
      | some idx =>
        rw [hfp] at hc
        dsimp only at hc
        cases hm : getMissingRequired headers
            (if idx < (row ++ List.replicate (headers.length - row.length) []).length then
              (row ++ List.replicate (headers.length - row.length) []).set idx value
             else row ++ List.replicate (headers.length - row.length) []) with
        | cons a l => rw [hm] at hc; exact PriorityOutcome.noConfusion hc
        | nil =>
          rw [hm] at hc
          cases hd : findDuplicate fetch headers
              (if idx < (row ++ List.replicate (headers.length - row.length) []).length then
                (row ++ List.replicate (headers.length - row.length) []).set idx value
               else row ++ List.replicate (headers.length - row.length) []) 50 with
          | some p => rw [hd] at hc; exact PriorityOutcome.noConfusion hc
          | none =>
            rw [hd] at hc
            cases hc
            exact applies_preserve_missing headers _ t _ ht hm
  · intro category headers row t todayStr nowOrd r ht h0 hc
    unfold confirmDuplicateAdd at hc
    dsimp only at hc
    split at hc
    · exact ConfirmOutcome.noConfusion hc
    · cases hc
      exact applies_preserve_missing headers row t _ ht h0
  · intro fetch headers row t todayStr nowOrd r ht h0 hc
    unfold finalizeMultiItem at hc
    dsimp only at hc
    cases hd : findDuplicate fetch headers
        (applyDateFields headers (applyTextFields headers row t) t
          ((parseDateValue todayStr).getD nowOrd)) 50 with
    | some p => rw [hd] at hc; exact FinalizeOutcome.noConfusion hc
    | none =>
      rw [hd] at hc
      cases hc
      exact applies_preserve_missing headers row t _ ht h0

/-- C1 witness: a direct-path commit and a duplicate-confirmation commit at
concrete inputs, whose committed rows have their single mandatory cell
filled. -/
theorem C1_commit_mandatory_filled_witness :
    getMissingRequired [("Задача*").data] [("сделать презентацию").data] = [] ∧
    getMissingRequired [("Задача*").data] [("сделать презентацию").data] = [] ∧
    strip (("нужно сделать презентацию").data) ≠ [] :=
  ⟨C1_commit_mandatory_filled.1 (Except.ok []) [("Задача*").data]
      [("сделать презентацию").data] (("нужно сделать презентацию").data) 20738
      [("сделать презентацию").data] (by decide),
   C1_commit_mandatory_filled.2.2.2.2.1 (("Задачи").data) [("Задача*").data]
      [("сделать презентацию").data] (("нужно сделать презентацию").data)
      (("12.10.2026").data) 20738 [("сделать презентацию").data] (by decide) (by decide)
      (by decide),
   by decide⟩

/-- C2 counterexample: in the multi-item path, a duplicate hit does not
suspend into a user confirmation — the item is silently skipped.  The store
already holds a row with summary Обед dated 01.02.2026; the new item extracts
to the same date with summary обед, the duplicate check fires, and the
outcome is duplicateSkipped rather than a confirmation prompt. -/
theorem C2_multi_autoskip_counterexample :
    processMultiItem
      (Except.ok [[("Дата").data, ("Суть").data],
                  [("01.02.2026").data, ("Обед").data]])
      [("Дата").data, ("Суть").data]
      [("01.02.2026").data, ("обед").data]
      (("обед").data) 20738 = .duplicateSkipped := by decide

/-- C2 amended: only the single-item intake paths suspend into a binary
confirmation on a duplicate hit; the multi-item per-item path and the
multi-item finalization path skip the item silently (reporting a skipped
line) without asking the user. -/
theorem C2_amended_duplicate_confirmation :
    (∀ fetch headers row0 t today p,
       getMissingRequired headers
         (applyDateFields headers (applyTextFields headers row0 t) t today) = [] →
       findDuplicate fetch headers
         (applyDateFields headers (applyTextFields headers row0 t) t today) 50 = some p →
       handleVoiceAfterExtract fetch headers row0 t today =
         .askDuplicate p (applyDateFields headers (applyTextFields headers row0 t) t today)) ∧
    (∀ fetch headers row0 t today p,
       headers ≠ [] →
       getMissingRequired headers
         (applyDateFields headers (applyTextFields headers row0 t) t today) = [] →
       findDuplicate fetch headers
         (applyDateFields headers (applyTextFields headers row0 t) t today) 50 = some p →
       processMultiItem fetch headers row0 t today = .duplicateSkipped) ∧
    (∀ fetch headers row t todayStr nowOrd p,
       findDuplicate fetch headers
         (applyDateFields headers (applyTextFields headers row t) t
           ((parseDateValue todayStr).getD nowOrd)) 50 = some p →
       finalizeMultiItem fetch headers row t todayStr nowOrd = .duplicateSkipped) := by
  refine ⟨?_, ?_, ?_⟩
  · intro fetch headers row0 t today p hm hd
    unfold handleVoiceAfterExtract
    dsimp only
    rw [hm, hd]
  · intro fetch headers row0 t today p hh hm hd
    unfold processMultiItem
    rw [if_neg hh]
    dsimp only
    rw [hm, hd]
  · intro fetch headers row t todayStr nowOrd p hd
    unfold finalizeMultiItem
    dsimp only
    rw [hd]

/-- C2 amended witness: at the concrete duplicate store, the single-item path
suspends into the confirmation carrying the preview of the colliding row, and
the multi-item paths skip. -/
theorem C2_amended_duplicate_confirmation_witness :
    handleVoiceAfterExtract
      (Except.ok [[("Дата").data, ("Суть").data],
                  [("01.02.2026").data, ("Обед").data]])
      [("Дата").data, ("Суть").data]
      [("01.02.2026").data, ("обед").data]
      (("обед").data) 20738 =
      .askDuplicate (("📅 Дата: 01.02.2026\n📝 Суть: Обед").data)
        [("01.02.2026").data, ("обед").data] ∧
    finalizeMultiItem
      (Except.ok [[("Дата").data, ("Суть").data],
                  [("01.02.2026").data, ("Обед").data]])
      [("Дата").data, ("Суть").data]
      [("01.02.2026").data, ("обед").data]
      (("обед").data) (("12.10.2026").data) 20738 = .duplicateSkipped :=
  ⟨C2_amended_duplicate_confirmation.1
      (Except.ok [[("Дата").data, ("Суть").data],
                  [("01.02.2026").data, ("Обед").data]])
      [("Дата").data, ("Суть").data]
      [("01.02.2026").data, ("обед").data]
      (("обед").data) 20738 (("📅 Дата: 01.02.2026\n📝 Суть: Обед").data)
      (by decide) (by decide),
   C2_amended_duplicate_confirmation.2.2
      (Except.ok [[("Дата").data, ("Суть").data],
                  [("01.02.2026").data, ("Обед").data]])
      [("Дата").data, ("Суть").data]
      [("01.02.2026").data, ("обед").data]
      (("обед").data) (("12.10.2026").data) 20738
      (("📅 Дата: 01.02.2026\n📝 Суть: Обед").data) (by decide)⟩

/-- C3 counterexample: on the transcript привет neither the delete heuristic
nor the question heuristic fires, so detection reaches the LLM call; when
that call fails, detect propagates the failure instead of returning an intent
whose action is add. -/
theorem C3_llm_failure_propagates_counterexample :
    heuristicIntent (("привет").data) = none ∧
    detectIntent (("привет").data) (Except.error ()) = Except.error () := by decide

/-- C3 amended: when the heuristic does not settle the intent, a failing LLM
classification call propagates out of detect (there is no try/except around
it); only a successful call is post-processed, and then the returned action
always lies in the add/delete/ask enum (with out-of-enum and unsupported ask
answers demoted to add). -/
theorem C3_amended_intent_failure :
    (∀ text e, heuristicIntent text = none →
       detectIntent text (Except.error e) = Except.error e) ∧
    (∀ text d, heuristicIntent text = none →
       ∃ a q, detectIntent text (Except.ok d) = Except.ok ((a, q)) ∧
         (a = ("add").data ∨ a = ("delete").data ∨ a = ("ask").data)) := by
  constructor
  · intro text e h
    unfold detectIntent
    rw [h]
  · intro text d h
    unfold detectIntent
    rw [h]
    dsimp only
    by_cases henum : ¬ (lower (strip (d.action.getD (("add").data))) = ("add").data ∨
        lower (strip (d.action.getD (("add").data))) = ("delete").data ∨
        lower (strip (d.action.getD (("add").data))) = ("ask").data)
    · rw [if_pos henum]
      by_cases hask : ("add").data = ("ask").data ∧ ¬ strongQuestionSignal text = true
      · exact absurd hask.1 (by decide)
      · rw [if_neg hask]
        exact ⟨_, _, rfl, Or.inl rfl⟩
    · rw [if_neg henum]
      rw [not_not] at henum
      by_cases hask : lower (strip (d.action.getD (("add").data))) = ("ask").data ∧
          ¬ strongQuestionSignal text = true
      · rw [if_pos hask]
        exact ⟨_, _, rfl, Or.inl rfl⟩
      · rw [if_neg hask]
        exact ⟨_, _, rfl, henum⟩

/-- C3 amended witness: concrete propagation of a failed call on привет, and a
successful call with an out-of-enum action yielding an in-enum result. -/
theorem C3_amended_intent_failure_witness :
    detectIntent (("привет").data) (Except.error ()) = Except.error () ∧
    detectIntent (("привет").data)
        (Except.ok ⟨some (("foo").data), some (("bar").data)⟩) ≠ Except.error () :=
  ⟨C3_amended_intent_failure.1 (("привет").data) () (by decide),
   by
     obtain ⟨a, q, heq, _⟩ := C3_amended_intent_failure.2 (("привет").data)
       ⟨some (("foo").data), some (("bar").data)⟩ (by decide)
     rw [heq]
     exact fun hcon => Except.noConfusion hcon⟩

/-- C4: the code slip behind the claim — in the waiting_required state, a
free-text reply off (explicit skip) reaches the branch of
handle_required_fields that evaluates the undefined name today_date
(voice.py line 759), raising NameError before any duplicate check or append:
the row is neither duplicate-checked nor committed, contrary to the claim and
to the evident intent of the code that follows. -/
theorem C4_skip_text_crashes :
    handleRequiredFieldsText (Except.ok []) (("Задачи").data) [("Задача*").data]
      [[]] (("off").data) = .crash := by decide

/-- C5 counterexample: a header that semantically means date but is not the
exact Russian word Дата — here the English header Date — is left empty, not
filled with the supplied today string, when the model output omits it. -/
theorem C5_date_header_counterexample :
    extractRow [] [("Date").data] (("01.01.2025").data) = [[]] ∧
    extractRow [] [("Date").data] (("01.01.2025").data) ≠ [("01.01.2025").data] := by
  decide

/- ## Lemmas: association lists with dict semantics -/

theorem lookupAssoc_nil {κ ν : Type} [DecidableEq κ] (k : κ) :
    lookupAssoc ([] : List (κ × ν)) k = none := rfl

theorem lookupAssoc_cons {κ ν : Type} [DecidableEq κ] (q : κ × ν) (m : List (κ × ν)) (k : κ) :
    lookupAssoc (q :: m) k = if q.1 = k then some q.2 else lookupAssoc m k := by
  unfold lookupAssoc
  by_cases h : q.1 = k
  · rw [List.find?_cons_of_pos _ (by simp [h]), if_pos h]
    rfl
  · rw [List.find?_cons_of_neg _ (by simp [h]), if_neg h]

theorem lookupAssoc_updateAssoc {κ ν : Type} [DecidableEq κ]
    (m : List (κ × ν)) (k k2 : κ) (v : ν) :
    lookupAssoc (updateAssoc m k v) k2 = if k = k2 then some v else lookupAssoc m k2 := by
  induction m with
  | nil =>
    unfold updateAssoc
    rw [lookupAssoc_cons, lookupAssoc_nil]
  | cons p m ih =>
    unfold updateAssoc
    by_cases hp : p.1 = k
    · rw [if_pos hp, lookupAssoc_cons, lookupAssoc_cons]
      by_cases h2 : k = k2
      · simp [h2]
      · rw [if_neg h2, if_neg h2, if_neg (hp ▸ h2)]
    · rw [if_neg hp, lookupAssoc_cons, lookupAssoc_cons, ih]
      by_cases h2 : k = k2
      · subst h2
        rw [if_pos rfl, if_pos rfl, if_neg hp]
      · rw [if_neg h2, if_neg h2]

theorem updateAssoc_mem {κ ν : Type} [DecidableEq κ] {m : List (κ × ν)} {k : κ} {v : ν}
    {p : κ × ν} (h : p ∈ updateAssoc m k v) : p ∈ m ∨ p = (k, v) := by
  induction m with
  | nil =>
    unfold updateAssoc at h
    right
    simpa using h
  | cons q m ih =>
    unfold updateAssoc at h
    by_cases hq : q.1 = k
    · rw [if_pos hq] at h
      rcases List.mem_cons.mp h with h1 | h1
      · right; exact h1
      · left; exact List.mem_cons_of_mem q h1
    · rw [if_neg hq] at h
      rcases List.mem_cons.mp h with h1 | h1
      · left; rw [h1]; exact List.mem_cons_self q m
      · rcases ih h1 with h2 | h2
        · left; exact List.mem_cons_of_mem q h2
        · right; exact h2

theorem lookupAssoc_append_left {κ ν : Type} [DecidableEq κ]
    {m1 : List (κ × ν)} {k : κ} {v : ν} (m2 : List (κ × ν))
    (h : lookupAssoc m1 k = some v) : lookupAssoc (m1 ++ m2) k = some v := by
  induction m1 with
  | nil => rw [lookupAssoc_nil] at h; exact Option.noConfusion h
  | cons q m ih =>
    rw [lookupAssoc_cons] at h
    rw [List.cons_append, lookupAssoc_cons]
    by_cases hq : q.1 = k
    · rw [if_pos hq] at h ⊢; exact h
    · rw [if_neg hq] at h ⊢; exact ih h

theorem lookupAssoc_append_none {κ ν : Type} [DecidableEq κ]
    {m1 : List (κ × ν)} {k : κ} (m2 : List (κ × ν))
    (h : lookupAssoc m1 k = none) : lookupAssoc (m1 ++ m2) k = lookupAssoc m2 k := by
  induction m1 with
  | nil => simp
  | cons q m ih =>
    rw [lookupAssoc_cons] at h
    rw [List.cons_append, lookupAssoc_cons]
    by_cases hq : q.1 = k
    · rw [if_pos hq] at h; exact Option.noConfusion h
    · rw [if_neg hq] at h ⊢; exact ih h

theorem lookupAssoc_eq_some_mem {κ ν : Type} [DecidableEq κ]
    {m : List (κ × ν)} {k : κ} {v : ν} (h : lookupAssoc m k = some v) : (k, v) ∈ m := by
  induction m with
  | nil => rw [lookupAssoc_nil] at h; exact Option.noConfusion h
  | cons q m ih =>
    rw [lookupAssoc_cons] at h
    by_cases hq : q.1 = k
    · rw [if_pos hq] at h
      cases q with
      | mk a b =>
        cases Option.some.inj h
        cases hq
        exact List.mem_cons_self _ _
    · rw [if_neg hq] at h
      exact List.mem_cons_of_mem q (ih h)

/- ## Lemmas: the extract_row pipeline -/

theorem normalizedHeaders_key (headers : List Str) (m0 : List (Str × Str))
    (h0 : ∀ p ∈ m0, p.1 = rsNormalize p.2) :
    ∀ p ∈ headers.foldl (fun m h => updateAssoc m (rsNormalize h) h) m0,
      p.1 = rsNormalize p.2 := by
  induction headers generalizing m0 with
  | nil => exact h0
  | cons h hs ih =>
    rw [List.foldl_cons]
    apply ih
    intro p hp
    rcases updateAssoc_mem hp with h1 | h1
    · exact h0 p h1
    · rw [h1]

theorem extractRow_data_fold_none (nh : List (Str × Str))
    (hnh : ∀ p ∈ nh, p.1 = rsNormalize p.2) (hk : Str)
    (data : List (Str × Option Str))
    (hb : ∀ kv ∈ data, rsNormalize kv.1 ≠ rsNormalize hk) (m0 : List (Str × Str))
    (hm0 : lookupAssoc m0 hk = none) :
    lookupAssoc (data.foldl (fun m kv =>
      match lookupAssoc nh (rsNormalize kv.1) with
      | some h => updateAssoc m h (match kv.2 with | none => [] | some v => v)
      | none => m) m0) hk = none := by
  induction data generalizing m0 with
  | nil => exact hm0
  | cons kv data ih =>
    rw [List.foldl_cons]
    try dsimp only
    cases hl : lookupAssoc nh (rsNormalize kv.1) with
    | none =>
      dsimp only
      exact ih (fun x hx => hb x (List.mem_cons_of_mem kv hx)) m0 hm0
    | some h2 =>
      dsimp only
      apply ih (fun x hx => hb x (List.mem_cons_of_mem kv hx))
      rw [lookupAssoc_updateAssoc]
      have hkey : rsNormalize kv.1 = rsNormalize h2 :=
        hnh _ (lookupAssoc_eq_some_mem hl)
      by_cases he : h2 = hk
      · exfalso
        apply hb kv (List.mem_cons_self kv data)
        rw [hkey, he]
      · rw [if_neg he]
        exact hm0

theorem setdefault_fold_mono (hs : List Str) (m : List (Str × Str)) (hk : Str) (v : Str)
    (hl : lookupAssoc m hk = some v) :
    lookupAssoc (hs.foldl (fun m h =>
      if (lookupAssoc m h).isSome then m else m ++ [(h, [])]) m) hk = some v := by
  induction hs generalizing m with
  | nil => exact hl
  | cons h2 hs ih =>
    rw [List.foldl_cons]
    try dsimp only
    by_cases hs2 : (lookupAssoc m h2).isSome
    · rw [if_pos hs2]
      exact ih m hl
    · rw [if_neg hs2]
      exact ih _ (lookupAssoc_append_left _ hl)

theorem setdefault_fold_sets (hs : List Str) (m : List (Str × Str)) (hk : Str)
    (hmem : hk ∈ hs) (hl : lookupAssoc m hk = none) :
    lookupAssoc (hs.foldl (fun m h =>
      if (lookupAssoc m h).isSome then m else m ++ [(h, [])]) m) hk = some [] := by
  induction hs generalizing m with
  | nil => exact absurd hmem (List.not_mem_nil hk)
  | cons h2 hs ih =>
    rw [List.foldl_cons]
    try dsimp only
    by_cases hh : h2 = hk
    · subst hh
      rw [if_neg (by rw [hl]; simp)]
      apply setdefault_fold_mono
      rw [lookupAssoc_append_none _ hl, lookupAssoc_cons]
      simp
    · by_cases hs2 : (lookupAssoc m h2).isSome
      · rw [if_pos hs2]
        exact ih m (List.mem_of_ne_of_mem (fun he => hh he.symm) hmem) hl
      · rw [if_neg hs2]
        apply ih _ (List.mem_of_ne_of_mem (fun he => hh he.symm) hmem)
        rw [lookupAssoc_append_none _ hl, lookupAssoc_cons]
        rw [if_neg hh, lookupAssoc_nil]

theorem dateDefault_fold_skip (todayStr : Str) (hs : List Str) (m : List (Str × Str))
    (hk : Str) (hnd : rsNormalize hk ≠ ("дата").data) :
    lookupAssoc (hs.foldl (fun m h =>
      if rsNormalize h = ("дата").data ∧ strip ((lookupAssoc m h).getD []) = [] then
        updateAssoc m h todayStr
      else m) m) hk = lookupAssoc m hk := by
  induction hs generalizing m with
  | nil => rfl
  | cons h2 hs ih =>
    rw [List.foldl_cons]
    try dsimp only
    by_cases hc : rsNormalize h2 = ("дата").data ∧ strip ((lookupAssoc m h2).getD []) = []
    · rw [if_pos hc, ih, lookupAssoc_updateAssoc]
      have hne : h2 ≠ hk := fun he => hnd (he ▸ hc.1)
      rw [if_neg hne]
    · rw [if_neg hc, ih]

theorem dateDefault_fold_filled (todayStr : Str) (hs : List Str) (m : List (Str × Str))
    (hk : Str) (hd : rsNormalize hk = ("дата").data)
    (hq : hk ∈ hs ∨ lookupAssoc m hk = some todayStr ∨
      strip ((lookupAssoc m hk).getD []) ≠ []) :
    lookupAssoc (hs.foldl (fun m h =>
      if rsNormalize h = ("дата").data ∧ strip ((lookupAssoc m h).getD []) = [] then
        updateAssoc m h todayStr
      else m) m) hk = some todayStr ∨
    strip ((lookupAssoc (hs.foldl (fun m h =>
      if rsNormalize h = ("дата").data ∧ strip ((lookupAssoc m h).getD []) = [] then
        updateAssoc m h todayStr
      else m) m) hk).getD []) ≠ [] := by
  induction hs generalizing m with
  | nil =>
    rcases hq with hq | hq | hq
    · exact absurd hq (List.not_mem_nil hk)
    · exact Or.inl hq
    · exact Or.inr hq
  | cons h2 hs ih =>
    rw [List.foldl_cons]
    try dsimp only
    by_cases hh : h2 = hk
    · subst hh
      by_cases hc : rsNormalize h2 = ("дата").data ∧ strip ((lookupAssoc m h2).getD []) = []
      · rw [if_pos hc]
        apply ih
        right; left
        rw [lookupAssoc_updateAssoc, if_pos rfl]
      · rw [if_neg hc]
        apply ih
        right; right
        intro he
        exact hc ⟨hd, he⟩
    · by_cases hc : rsNormalize h2 = ("дата").data ∧ strip ((lookupAssoc m h2).getD []) = []
      · rw [if_pos hc]
        apply ih
        rcases hq with hq | hq | hq
        · exact Or.inl (List.mem_of_ne_of_mem (fun he => hh he.symm) hq)
        · right; left
          rw [lookupAssoc_updateAssoc, if_neg hh]
          exact hq
        · right; right
          rw [lookupAssoc_updateAssoc, if_neg hh]
          exact hq
      · rw [if_neg hc]
        apply ih
        rcases hq with hq | hq | hq
        · exact Or.inl (List.mem_of_ne_of_mem (fun he => hh he.symm) hq)
        · exact Or.inr (Or.inl hq)
        · exact Or.inr (Or.inr hq)

/-- C5 amended: extract_row returns exactly one cell per header, positionally
aligned; a header for which the model output supplies no key (under
strip/lowercase normalization) gets the empty string — except that a header
normalizing to exactly the Russian word дата whose value is blank is filled
with the supplied today string.  Headers merely semantically meaning date
(such as Date or Дата выполнения) are not defaulted, as the counterexample
shows. -/
theorem C5_amended_extract_row (data : List (Str × Option Str)) (headers : List Str)
    (todayStr : Str) :
    (extractRow data headers todayStr).length = headers.length ∧
    (∀ i, ∀ h : i < headers.length,
       (∀ kv ∈ data, rsNormalize kv.1 ≠ rsNormalize (headers.get ⟨i, h⟩)) →
       rsNormalize (headers.get ⟨i, h⟩) ≠ ("дата").data →
       (extractRow data headers todayStr).getD i [] = []) ∧
    (∀ i, ∀ h : i < headers.length,
       rsNormalize (headers.get ⟨i, h⟩) = ("дата").data →
       (extractRow data headers todayStr).getD i [] = todayStr ∨
       strip ((extractRow data headers todayStr).getD i []) ≠ []) := by
  have hcell : ∀ i, ∀ h : i < headers.length,
      (extractRow data headers todayStr).getD i [] =
        (lookupAssoc (headers.foldl (fun m h =>
            if rsNormalize h = ("дата").data ∧ strip ((lookupAssoc m h).getD []) = [] then
              updateAssoc m h todayStr
            else m)
          (headers.foldl (fun m h =>
            if (lookupAssoc m h).isSome then m else m ++ [(h, [])])
            (data.foldl (fun m kv =>
              match lookupAssoc (headers.foldl
                  (fun m h => updateAssoc m (rsNormalize h) h) []) (rsNormalize kv.1) with
              | some h => updateAssoc m h (match kv.2 with | none => [] | some v => v)
              | none => m) [])))
          (headers.get ⟨i, h⟩)).getD [] := by
    intro i h
    unfold extractRow
    dsimp only
    rw [List.getD_eq_getElem?_getD, List.getElem?_map,
      List.getElem?_eq_getElem h]
    rfl
  refine ⟨?_, ?_, ?_⟩
  · unfold extractRow
    dsimp only
    rw [List.length_map]
  · intro i h hb hnd
    rw [hcell i h]
    rw [dateDefault_fold_skip _ _ _ _ hnd]
    rw [setdefault_fold_sets _ _ _ (headers.get_mem i h) ?hnone]
    · rfl
    case hnone =>
      exact extractRow_data_fold_none _ (normalizedHeaders_key headers [] (by simp)) _
        data hb [] rfl
  · intro i h hd
    rw [hcell i h]
    rcases dateDefault_fold_filled todayStr headers _ _ hd
        (Or.inl (headers.get_mem i h)) with hr | hr
    · left
      rw [hr]
      rfl
    · right
      exact hr

/-- C5 amended witness: the Russian header Дата is defaulted to today when the
model output leaves it blank, and a header absent from the output maps to the
empty string. -/
theorem C5_amended_extract_row_witness :
    (extractRow [] [("Поле").data, ("Дата").data] (("01.01.2025").data)).length = 2 ∧
    (extractRow [] [("Поле").data, ("Дата").data] (("01.01.2025").data)).getD 0 [] = [] ∧
    ((extractRow [] [("Поле").data, ("Дата").data] (("01.01.2025").data)).getD 1 [] =
        ("01.01.2025").data ∨
      strip ((extractRow [] [("Поле").data, ("Дата").data]
        (("01.01.2025").data)).getD 1 []) ≠ []) :=
  ⟨(C5_amended_extract_row [] [("Поле").data, ("Дата").data] (("01.01.2025").data)).1,
   (C5_amended_extract_row [] [("Поле").data, ("Дата").data]
       (("01.01.2025").data)).2.1 0 (by decide) (by simp) (by decide),
   (C5_amended_extract_row [] [("Поле").data, ("Дата").data]
       (("01.01.2025").data)).2.2 1 (by decide) (by decide)⟩

/-- C9 counterexample: the transcript надо позвонить клиенту. надо написать
отчет. carries exactly one explicit category-family signal (task), yet the
splitter returns two items, and neither item's text equals or contains the
whole transcript — each is a clause with surrounding punctuation trimmed. -/
theorem C9_single_signal_counterexample :
    signalCount (explicitCategorySignals
      (("надо позвонить клиенту. надо написать отчет.").data)) = 1 ∧
    (splitMultiItems (("надо позвонить клиенту. надо написать отчет.").data)
        [((("Задачи").data), [])] (Except.error ())).length = 2 ∧
    (splitMultiItems (("надо позвонить клиенту. надо написать отчет.").data)
        [((("Задачи").data), [])] (Except.error ())).all
      (fun it => !(containsSub it.text
        (("надо позвонить клиенту. надо написать отчет.").data))) = true := by
  decide

/-- C9 amended: for every transcript that carries at least one explicit
category-family signal (in particular exactly one) and for which the rule
tier produces at least one item, the splitter returns exactly the rule-tier
items, deterministically and without consulting the LLM; such a transcript
may yield several items, one per detected clause, each a trimmed fragment of
the transcript rather than a superset of it. -/
theorem C9_amended_rule_tier_deterministic (t : Str) (settings : List (Str × Str))
    (llm : Except Unit (Option (List RawItem)))
    (h1 : 1 ≤ signalCount (explicitCategorySignals t))
    (h2 : ruleBasedItems t settings ≠ []) :
    splitMultiItems t settings llm = ruleBasedItems t settings := by
  unfold splitMultiItems
  rw [if_pos ⟨h1, h2⟩]

/-- C9 amended witness: the counterexample transcript satisfies both
hypotheses and the splitter output is the rule-tier output, for an erroring
LLM. -/
theorem C9_amended_rule_tier_deterministic_witness :
    splitMultiItems (("надо позвонить клиенту. надо написать отчет.").data)
        [((("Задачи").data), [])] (Except.error ()) =
      ruleBasedItems (("надо позвонить клиенту. надо написать отчет.").data)
        [((("Задачи").data), [])] :=
  C9_amended_rule_tier_deterministic
    (("надо позвонить клиенту. надо написать отчет.").data)
    [((("Задачи").data), [])] (Except.error ()) (by decide) (by decide)

/- ## Lemmas: the stable descending sort -/

theorem insertScoredDesc_mem {α : Type} (x z : Nat × α) (l : List (Nat × α)) :
    z ∈ insertScoredDesc x l ↔ z = x ∨ z ∈ l := by
  induction l with
  | nil => simp [insertScoredDesc]
  | cons y ys ih =>
    unfold insertScoredDesc
    by_cases h : y.1 ≤ x.1
    · rw [if_pos h]
      simp
    · rw [if_neg h]
      simp only [List.mem_cons, ih]
      tauto

theorem insertScoredDesc_sorted {α : Type} (x : Nat × α) (l : List (Nat × α))
    (h : List.Pairwise (fun a b : Nat × α => b.1 ≤ a.1) l) :
    List.Pairwise (fun a b : Nat × α => b.1 ≤ a.1) (insertScoredDesc x l) := by
  induction l with
  | nil => simp [insertScoredDesc]
  | cons y ys ih =>
    rcases List.pairwise_cons.mp h with ⟨hy, hys⟩
    unfold insertScoredDesc
    by_cases hxy : y.1 ≤ x.1
    · rw [if_pos hxy]
      refine List.Pairwise.cons ?_ h
      intro z hz
      rcases List.mem_cons.mp hz with hz | hz
      · rw [hz]; exact hxy
      · exact le_trans (hy z hz) hxy
    · rw [if_neg hxy]
      refine List.Pairwise.cons ?_ (ih hys)
      intro z hz
      rcases (insertScoredDesc_mem x z ys).mp hz with hz | hz
      · rw [hz]; omega
      · exact hy z hz

theorem sortScoredDesc_sorted {α : Type} (l : List (Nat × α)) :
    List.Pairwise (fun a b : Nat × α => b.1 ≤ a.1) (sortScoredDesc l) := by
  induction l with
  | nil => simp [sortScoredDesc]
  | cons x xs ih =>
    unfold sortScoredDesc
    rw [List.foldr_cons]
    exact insertScoredDesc_sorted x _ ih

theorem sortScoredDesc_mem {α : Type} (z : Nat × α) (l : List (Nat × α)) :
    z ∈ sortScoredDesc l ↔ z ∈ l := by
  induction l with
  | nil => simp [sortScoredDesc]
  | cons x xs ih =>
    unfold sortScoredDesc
    rw [List.foldr_cons]
    rw [insertScoredDesc_mem]
    simp only [List.mem_cons]
    unfold sortScoredDesc at ih
    rw [ih]

/- ## Lemmas: the delete candidate loop -/

theorem scoreTokens_pos_exists (tokens : List Str) (text : Str)
    (h : scoreTokens tokens text ≠ 0) :
    ∃ tok ∈ tokens, containsSub (lower text) tok = true := by
  unfold scoreTokens at h
  by_cases he : tokens = []
  · rw [if_pos he] at h
    exact absurd rfl h
  · rw [if_neg he] at h
    have hne : tokens.filter (fun t => containsSub (lower text) t) ≠ [] := by
      intro hcon
      rw [hcon] at h
      exact h rfl
    obtain ⟨tok, htok⟩ := List.exists_mem_of_ne_nil _ hne
    exact ⟨tok, (List.mem_filter.mp htok).1, (List.mem_filter.mp htok).2⟩

theorem rowCandidateScore_some_inv {filters : DeleteFilters} {tokens : List Str}
    {name : Str} {headers : List Str} {rowIdx : Nat} {row : List Str}
    {sc : Nat × DeleteCandidate}
    (h : rowCandidateScore filters tokens name headers rowIdx row = some sc) :
    sc.2.sheetName = name ∧ sc.2.headers = headers ∧ sc.2.rowValues = row ∧
    (tokens ≠ [] → ∃ tok ∈ tokens,
      containsSub (lower (rowToText headers row)) tok = true) ∧
    (tokens = [] → ¬(filters.startDate = none ∧ filters.sheetKeywords = none)) := by
  unfold rowCandidateScore at h
  dsimp only at h
  by_cases ht : tokens ≠ []
  · rw [if_pos ht] at h
    by_cases hz : scoreTokens tokens (rowToText headers row) = 0
    · rw [if_pos hz] at h
      exact Option.noConfusion h
    · rw [if_neg hz] at h
      cases Option.some.inj h
      exact ⟨rfl, rfl, rfl, fun _ => scoreTokens_pos_exists _ _ hz,
        fun h0 => absurd h0 ht⟩
  · rw [if_neg ht] at h
    by_cases hf : filters.startDate = none ∧ filters.sheetKeywords = none
    · rw [if_pos hf] at h
      exact Option.noConfusion h
    · rw [if_neg hf] at h
      cases Option.some.inj h
      exact ⟨rfl, rfl, rfl, fun hne => absurd (not_not.mp ht) hne, fun _ => hf⟩

theorem rowCandidate_some_inv {filters : DeleteFilters} {tokens : List Str}
    {name : Str} {headers : List Str} {dateIdx : Option Nat} {rowIdx : Nat}
    {row : List Str} {sc : Nat × DeleteCandidate}
    (h : rowCandidate filters tokens name headers dateIdx rowIdx row = some sc) :
    sc.2.sheetName = name ∧ sc.2.headers = headers ∧ sc.2.rowValues = row ∧
    (∀ sd, filters.startDate = some sd →
      ∃ ed rd, filters.endDate = some ed ∧ extractRowDate row dateIdx = some rd ∧
        sd ≤ rd ∧ rd ≤ ed) ∧
    (tokens ≠ [] → ∃ tok ∈ tokens,
      containsSub (lower (rowToText headers row)) tok = true) ∧
    (tokens = [] → ¬(filters.startDate = none ∧ filters.sheetKeywords = none)) := by
  unfold rowCandidate at h
  by_cases h1 : ¬ row.any (fun cell => strip cell ≠ [])
  · rw [if_pos h1] at h
    exact Option.noConfusion h
  · rw [if_neg h1] at h
    cases hsd : filters.startDate with
    | none =>
      rw [hsd] at h
      dsimp only at h
      obtain ⟨e1, e2, e3, e4, e5⟩ := rowCandidateScore_some_inv h
      refine ⟨e1, e2, e3, ?_, e4, fun h0 hp => e5 h0 ⟨hsd, hp.2⟩⟩
      intro sd hcon
      exact Option.noConfusion hcon
    | some sd =>
      rw [hsd] at h
      cases hed : filters.endDate with
      | none =>
        rw [hed] at h
        dsimp only at h
        exact Option.noConfusion h
      | some ed =>
        rw [hed] at h
        dsimp only at h
        cases hrd : extractRowDate row dateIdx with
        | none =>
          rw [hrd] at h
          exact Option.noConfusion h
        | some rd =>
          rw [hrd] at h
          dsimp only at h
          by_cases hr : rd < sd ∨ ed < rd
          · rw [if_pos hr] at h
            exact Option.noConfusion h
          · rw [if_neg hr] at h
            push_neg at hr
            obtain ⟨e1, e2, e3, e4, e5⟩ := rowCandidateScore_some_inv h
            refine ⟨e1, e2, e3, ?_, e4, fun h0 hp => Option.noConfusion hp.1⟩
            intro sd2 hsd2
            cases Option.some.inj hsd2
            exact ⟨ed, rd, rfl, rfl, hr.1, hr.2⟩

theorem sheetCandidates_mem {store : Str → List (List Str)} {filters : DeleteFilters}
    {tokens : List Str} {name : Str} {sc : Nat × DeleteCandidate}
    (h : sc ∈ sheetCandidates store filters tokens name) :
    (∀ ks, filters.sheetKeywords = some ks → matchSheet name ks = true) ∧
    ∃ i r, rowCandidate filters tokens name ((store name).headD [])
      (if filters.startDate.isSome then findDateIndex ((store name).headD []) else none)
      i r = some sc := by
  unfold sheetCandidates at h
  by_cases h1 : memStr (lower (strip name)) excludedSheets = true
  · rw [if_pos h1] at h
    exact absurd h (List.not_mem_nil sc)
  · rw [if_neg h1] at h
    have hrest : (∀ ks, filters.sheetKeywords = some ks → matchSheet name ks = true) ∧
        sc ∈ (if (store name).length < 2 then ([] : List (Nat × DeleteCandidate))
          else
            (enumRowsFrom 2 ((store name).drop 1)).filterMap (fun p =>
              rowCandidate filters tokens name ((store name).headD [])
                (if filters.startDate.isSome then
                  findDateIndex ((store name).headD []) else none) p.1 p.2)) := by
      cases hks : filters.sheetKeywords with
      | none =>
        rw [hks] at h
        rw [if_neg (by simp)] at h
        refine ⟨fun ks hcon => Option.noConfusion hcon, h⟩
      | some ks =>
        rw [hks] at h
        by_cases hms : matchSheet name ks = true
        · rw [if_neg (by simp [hms])] at h
          refine ⟨fun ks2 hk2 => ?_, h⟩
          cases Option.some.inj hk2
          exact hms
        · rw [if_pos (by simp [hms])] at h
          exact absurd h (List.not_mem_nil sc)
    obtain ⟨hkw, h2⟩ := hrest
    by_cases hlen : (store name).length < 2
    · rw [if_pos hlen] at h2
      exact absurd h2 (List.not_mem_nil sc)
    · rw [if_neg hlen] at h2
      obtain ⟨p, _hp, heq⟩ := List.mem_filterMap.mp h2
      exact ⟨hkw, p.1, p.2, heq⟩

/-- C6: every scored candidate returned by find_candidates satisfies all
inferred filters simultaneously — its sheet name matches the category-family
keywords when present in the query, its recognized date column parses to a
date inside the inferred range when a date phrase is present, and it contains
at least one non-stop-word query token (or, with an empty token list, some
date/category filter was supplied) — and the scored list is sorted by
descending score, truncated to at most limit, with find_candidates its
score-erased image. -/
theorem C6_find_candidates_spec (sheetNames : List Str) (store : Str → List (List Str))
    (query : Str) (today : Int) (limit : Nat) :
    findCandidates sheetNames store query today limit =
      (findCandidatesScored sheetNames store query today limit).map (fun p => p.2) ∧
    (findCandidatesScored sheetNames store query today limit).length ≤ limit ∧
    List.Pairwise (fun a b : Nat × DeleteCandidate => b.1 ≤ a.1)
      (findCandidatesScored sheetNames store query today limit) ∧
    (∀ sc ∈ findCandidatesScored sheetNames store query today limit,
      (∀ ks, (inferFilters query today).sheetKeywords = some ks →
        matchSheet sc.2.sheetName ks = true) ∧
      (∀ sd, (inferFilters query today).startDate = some sd →
        ∃ ed rd, (inferFilters query today).endDate = some ed ∧
          extractRowDate sc.2.rowValues (findDateIndex sc.2.headers) = some rd ∧
          sd ≤ rd ∧ rd ≤ ed) ∧
      ((tokenize query).filter (fun t => ¬ memStr t stopWordsList) ≠ [] →
        ∃ tok ∈ (tokenize query).filter (fun t => ¬ memStr t stopWordsList),
          containsSub (lower (rowToText sc.2.headers sc.2.rowValues)) tok = true) ∧
      ((tokenize query).filter (fun t => ¬ memStr t stopWordsList) = [] →
        ¬((inferFilters query today).startDate = none ∧
          (inferFilters query today).sheetKeywords = none))) := by
  refine ⟨rfl, ?_, ?_, ?_⟩
  · unfold findCandidatesScored
    dsimp only
    exact List.length_take_le _ _
  · unfold findCandidatesScored
    dsimp only
    exact List.Pairwise.sublist (List.take_sublist _ _) (sortScoredDesc_sorted _)
  · intro sc hmem
    unfold findCandidatesScored at hmem
    dsimp only at hmem
    have hmem2 := (List.take_sublist _ _).subset hmem
    rw [sortScoredDesc_mem] at hmem2
    obtain ⟨lst, hlst, hsc⟩ := List.mem_flatten.mp hmem2
    obtain ⟨name, _hname, hfl⟩ := List.mem_map.mp hlst
    rw [← hfl] at hsc
    obtain ⟨hkw, i, r, heq⟩ := sheetCandidates_mem hsc
    obtain ⟨e1, e2, e3, hdate, htok, htoke⟩ := rowCandidate_some_inv heq
    refine ⟨?_, ?_, ?_, htoke⟩
    · intro ks hks
      rw [e1]
      exact hkw ks hks
    · intro sd hsd
      obtain ⟨ed, rd, hed, hrd, hx1, hx2⟩ := hdate sd hsd
      refine ⟨ed, rd, hed, ?_, hx1, hx2⟩
      rw [e2, e3]
      rw [hsd] at hrd
      simpa using hrd
    · intro hne
      rw [e2, e3]
      exact htok hne

/-- C6 witness: the scenario query удали вчерашнюю задачу про кофе against a
task sheet holding one row dated 11.10.2026, with today 12.10.2026: the
single returned candidate matches the task-family sheet filter, and the
result respects the limit. -/
theorem C6_find_candidates_spec_witness :
    matchSheet (("Задачи").data) [("задач").data, ("task").data] = true ∧
    (findCandidatesScored [("Задачи").data]
      (fun _ => [[("Дата").data, ("Задача").data],
                 [("11.10.2026").data, ("купить кофе").data]])
      (("удали вчерашнюю задачу про кофе").data) 20738 7).length ≤ 7 :=
  ⟨by
    have hc := (C6_find_candidates_spec [("Задачи").data]
      (fun _ => [[("Дата").data, ("Задача").data],
                 [("11.10.2026").data, ("купить кофе").data]])
      (("удали вчерашнюю задачу про кофе").data) 20738 7).2.2.2
      ((1 : Nat), ⟨("Задачи").data, 2, [("Дата").data, ("Задача").data],
        [("11.10.2026").data, ("купить кофе").data],
        ("[Задачи] Дата: 11.10.2026; Задача: купить кофе").data⟩)
      (by decide)
    exact hc.1 [("задач").data, ("task").data] (by decide),
   (C6_find_candidates_spec [("Задачи").data]
      (fun _ => [[("Дата").data, ("Задача").data],
                 [("11.10.2026").data, ("купить кофе").data]])
      (("удали вчерашнюю задачу про кофе").data) 20738 7).2.1⟩

end SB
